import Mathlib

/-!
Shallow embedding of the feed-ranking and cursor-pagination engine of a
posts-feed service (TypeScript source: `FeedService` with
`calculateRelevanceScore` / `applyCursorPagination` / `getFeed`, the cursor
codec `createCursor` / `parseCursor` in `feed-query.dto.ts`, and the
error-absorbing cache wrapper `CacheService`), together with proofs of the
specified properties.

Modelling conventions:
* TypeScript `number` values that the pagination engine and the codec
  manipulate (relevance scores, cursor scores) are modelled as exact
  rationals (`ℚ`); the source decimal literals `0.1` and `0.001` are the
  rationals `1/10` and `1/1000`.  Every finite IEEE-754 double is a rational
  whose denominator divides a power of ten, so the decimal hypotheses used
  below cover all values the running program can produce.
* Timestamps (`Date.now()`, `createdAt.getTime()`) are integers counting
  milliseconds; `Math.floor` of the quotient of such integers is `Int.fdiv`.
* The idealized real-valued scoring formula (which uses `exp`) is stated
  over `ℝ`; the evaluation time that the source reads from `Date.now()` is
  passed as an explicit argument.
* JavaScript `Array.prototype.findIndex` (returning -1 on failure) is
  modelled by an `Option Nat`-valued function; `null`/`undefined`/`NaN`
  results are modelled by `Option.none`.
-/

set_option allowUnsafeReducibility true
attribute [local semireducible] Rat.sub Rat.add Rat.mul Rat.div Rat.neg Rat.inv

namespace TeaFeed

/-- A stored post, restricted to the fields the feed core reads:
`_id` (the document identifier, a 24-character lowercase-hex string in the
store), `likeCount` and `createdAt` (epoch milliseconds). -/
structure Post where
  _id : String
  likeCount : Nat
  createdAt : Int
deriving DecidableEq, Repr

/-- Constant from `calculateRelevanceScore`: `const HOUR_IN_MS = 1000 * 60 * 60`. -/
def HOUR_IN_MS : Int := 1000 * 60 * 60

/-- Quantization `Math.floor(currentTime / HOUR_IN_MS) * HOUR_IN_MS`: the evaluation time
quantized down to the start of the current hour. -/
def quantizedTime (currentTime : Int) : Int :=
  (Int.fdiv currentTime HOUR_IN_MS) * HOUR_IN_MS

/-- Age in hours, `hoursOld = (quantizedTime - createdAt.getTime()) / HOUR_IN_MS` (real
division, as in the source's floating-point division). -/
noncomputable def hoursOld (currentTime createdAt : Int) : ℝ :=
  ((quantizedTime currentTime - createdAt : Int) : ℝ) / (HOUR_IN_MS : ℝ)

/-- Scorer `FeedService.calculateRelevanceScore`:
`likeCount * Math.exp(-0.1 * hoursOld)`, with the evaluation time (read from
`Date.now()` in the source) passed explicitly. -/
noncomputable def calculateRelevanceScore (post : Post) (currentTime : Int) : ℝ :=
  post.likeCount * Real.exp (-0.1 * hoursOld currentTime post.createdAt)

/-! ### Cursor codec (`feed-query.dto.ts`) -/

/-- Decides whether a character is one of the ASCII digits `0`-`9`. -/
def isDigitChar (c : Char) : Bool := 48 ≤ c.toNat && c.toNat ≤ 57

/-- The ASCII digit character for a digit value below ten. -/
def digitToChar (d : Nat) : Char := Char.ofNat (48 + d)

/-- The digit value of an ASCII digit character. -/
def charToDigit (c : Char) : Nat := c.toNat - 48

/-- Big-endian decimal digits of a natural number, with explicit fuel (kept
structural so that concrete renderings evaluate by kernel reduction). -/
def natDigitsAux : Nat → Nat → List Nat
  | 0, n => [n]
  | fuel + 1, n => if n < 10 then [n] else natDigitsAux fuel (n / 10) ++ [n % 10]

/-- Big-endian decimal digits of a natural number (`27 ↦ [2, 7]`). -/
def natDigits (n : Nat) : List Nat := natDigitsAux n n

/-- Value of a big-endian decimal digit list. -/
def natOfDigits (ds : List Nat) : Nat := ds.foldl (fun a d => 10 * a + d) 0

/-- Decimal digit characters of a natural number. -/
def natChars (n : Nat) : List Char := (natDigits n).map digitToChar

/-- Fueled helper for `stripFactor` (kept structural so that concrete
renderings evaluate by kernel reduction). -/
def stripFactorAux (p : Nat) : Nat → Nat → Nat × Nat
  | 0, n => (0, n)
  | fuel + 1, n =>
    if 1 < p ∧ 1 < n ∧ n % p = 0 then
      let r := stripFactorAux p fuel (n / p)
      (r.1 + 1, r.2)
    else (0, n)

/-- Computes `(multiplicity of p in n, n with all factors p removed)`, for `1 < p`. -/
def stripFactor (p n : Nat) : Nat × Nat := stripFactorAux p n n

/-- An exponent `e` with `den ∣ 10 ^ e`, when one exists (that is, when
`den = 2 ^ a * 5 ^ b`; the denominator of every finite double is of this
form). -/
def decExp (den : Nat) : Option Nat :=
  let s2 := stripFactor 2 den
  let s5 := stripFactor 5 s2.2
  if s5.2 = 1 then some (max s2.1 s5.1) else none

/-- A run of `count` ASCII zero characters, used to left-pad a fractional part. -/
def padZeros (count : Nat) : List Char := List.replicate count '0'

/-- Ten to an integer power, as a rational (the scaling applied by a decimal
exponent part). -/
def pow10 (i : Int) : ℚ :=
  if 0 ≤ i then (10 : ℚ) ^ i.toNat else ((10 : ℚ) ^ (-i).toNat)⁻¹

/-- Mantissa-and-exponent characters of ECMAScript exponential notation:
for significand digits `s` (not divisible by ten) and decimal exponent `ex`,
`"s[0].s[1..]e±ex"` (no dot when `s` is a single digit), as in `"1e-7"` and
`"1.02e+21"`. -/
def expoChars (s : Nat) (ex : Int) : List Char :=
  (match natChars s with
   | [] => []
   | d :: rest => if rest.isEmpty then [d] else d :: '.' :: rest) ++
  'e' :: (if ex < 0 then '-' else '+') :: natChars ex.natAbs

/-- Decimal rendering of a score, modelling the ECMAScript number-to-string
conversion applied by the template literal in `createCursor` (ECMA-262
`Number::toString`): writing the value as `s * 10 ^ (n - k)` with `s` not
divisible by ten and `k` the digit count of `s`, plain decimal notation is
used exactly when `-6 < n ≤ 21`, and exponential notation (as in `"1e-7"`
for values below `10^-6` and `"1e+21"` for values at or above `10^21`)
otherwise.  For a rational whose denominator is not of the form
`2 ^ a * 5 ^ b` — impossible for a value of a double — the fallback
exponent `0` is used. -/
def renderScore (q : ℚ) : List Char :=
  let sign : List Char := if q < 0 then ['-'] else []
  let e := (decExp q.den).getD 0
  let m := q.num.natAbs * (10 ^ e / q.den)
  let sz := stripFactor 10 m
  let n : Int := ((natDigits sz.2).length : Int) + (sz.1 : Int) - (e : Int)
  if ¬ m = 0 ∧ (n ≤ -6 ∨ 22 ≤ n) then
    sign ++ expoChars sz.2 (n - 1)
  else if e = 0 then sign ++ natChars m
  else
    sign ++ natChars (m / 10 ^ e) ++ ['.'] ++
      padZeros (e - (natDigits (m % 10 ^ e)).length) ++ natChars (m % 10 ^ e)

/-- Encoder `createCursor(score, postId)`: the template literal
`` `${score}_${postId}` ``. -/
def createCursor (score : ℚ) (postId : String) : String :=
  String.mk (renderScore score) ++ "_" ++ postId

/-- Models `String.prototype.split` with a single-character separator, at the level
of character lists; the result is never empty. -/
def splitCharList (sep : Char) : List Char → List (List Char)
  | [] => [[]]
  | c :: rest =>
    match splitCharList sep rest with
    | [] => [[]]
    | g :: gs => if c = sep then [] :: g :: gs else (c :: g) :: gs

/-- Wrapper `s.split(sep)` for a one-character separator. -/
def splitChar (sep : Char) (s : String) : List String :=
  (splitCharList sep s.data).map String.mk

/-- Value of an exponent part's digit run: `none` when no digit follows
(then the exponent part is not consumed, as in `parseFloat("1e+x") = 1`). -/
def expDigitsVal (r : List Char) : Option Nat :=
  let ds := r.takeWhile isDigitChar
  if ds.isEmpty then none else some (natOfDigits (ds.map charToDigit))

/-- Signed digit run after the `e`: an optional sign and digits. -/
def expSignedVal : List Char → Int
  | [] => 0
  | c2 :: r2 =>
    if c2 = '+' then ((expDigitsVal r2).getD 0 : Int)
    else if c2 = '-' then -((expDigitsVal r2).getD 0 : Int)
    else ((expDigitsVal (c2 :: r2)).getD 0 : Int)

/-- Decimal exponent denoted by the remainder after the significand:
`e`/`E`, an optional sign, and a digit run; `0` when no well-formed exponent
part starts the remainder (`parseFloat` then ignores it). -/
def expValOf : List Char → Int
  | [] => 0
  | c :: r => if c = 'e' ∨ c = 'E' then expSignedVal r else 0

/-- Fractional digit characters and unconsumed remainder after the integer
part: a `'.'` head consumes the dot and the digit run that follows. -/
def fracSplit : List Char → List Char × List Char
  | [] => ([], [])
  | c :: r =>
    if c = '.' then (r.takeWhile isDigitChar, r.dropWhile isDigitChar)
    else ([], c :: r)

/-- Longest-prefix parse of an unsigned decimal literal
(`digits [ '.' digits ] [ exponent ]`); `none` models a `NaN` result. -/
def parseUnsignedDec (cs : List Char) : Option ℚ :=
  let ip := (cs.takeWhile isDigitChar).map charToDigit
  let fres := fracSplit (cs.dropWhile isDigitChar)
  let fp := fres.1.map charToDigit
  if ip.isEmpty ∧ fp.isEmpty then none
  else some (((natOfDigits ip : ℚ) + (natOfDigits fp : ℚ) / 10 ^ fp.length) *
    pow10 (expValOf fres.2))

/-- Models `parseFloat` on the sign-decimal-exponent fragment (no
`Infinity`, no leading whitespace) — the fragment that cursor strings can
contain.  `none` models `NaN`. -/
def jsParseFloat (s : String) : Option ℚ :=
  match s.data with
  | [] => none
  | c :: cs =>
    if c = '-' then (parseUnsignedDec cs).map (fun q => -q)
    else if c = '+' then parseUnsignedDec cs
    else parseUnsignedDec (c :: cs)

/-- Result of `parseCursor`.  `score = none` models a `NaN` score and
`postId = none` models an `undefined` post id (both arise for malformed
input; the HTTP validation layer rejects such cursors before the feed
service runs). -/
structure ParsedCursor where
  score : Option ℚ
  postId : Option String
deriving DecidableEq, Repr

/-- Decoder `parseCursor(cursor)`:
`const [scoreStr, postId] = cursor.split('_')`, then
`{ score: parseFloat(scoreStr), postId }`. -/
def parseCursor (cursor : String) : ParsedCursor :=
  let parts := splitChar '_' cursor
  { score := jsParseFloat (parts.getD 0 ""), postId := parts.get? 1 }

/-- After the leading digit run, a match of `(\.\d+)?` is either nothing or
a dot followed by a non-empty digit run. -/
def isScoreTail : List Char → Bool
  | [] => true
  | c :: f => c == '.' && (!f.isEmpty && f.all isDigitChar)

/-- Decides whether a character list matches `\d+(\.\d+)?`. -/
def isScoreChars (cs : List Char) : Bool :=
  !(cs.takeWhile isDigitChar).isEmpty && isScoreTail (cs.dropWhile isDigitChar)

/-- Decides whether a character is one of `0`-`9` or `a`-`f`. -/
def isHexChar (c : Char) : Bool := isDigitChar c || (97 ≤ c.toNat && c.toNat ≤ 102)

/-- Decides whether a string is a 24-character lowercase-hex identifier. -/
def isHex24 (s : String) : Bool := s.data.length == 24 && s.data.all isHexChar

/-- The DTO wire-format regex `^\d+(\.\d+)?_[a-f0-9]{24}$` as a decidable
check (none of the character classes contains `_`, so a match has exactly
one underscore). -/
def isWireFormat (s : String) : Bool :=
  match splitCharList '_' s.data with
  | [scorePart, idPart] =>
    isScoreChars scorePart && (idPart.length == 24 && idPart.all isHexChar)
  | _ => false

/-! ### Pagination engine (`FeedService.applyCursorPagination`) -/

/-- A `PostWithScore` is a post together with its derived `relevanceScore`. -/
structure PostWithScore extends Post where
  relevanceScore : ℚ
deriving DecidableEq, Repr

/-- Default element for the (always in-range) JavaScript index accesses. -/
def dummyPost : PostWithScore :=
  { _id := "", likeCount := 0, createdAt := 0, relevanceScore := 0 }

/-- Tolerance constant `const SCORE_TOLERANCE = 0.001`. -/
def SCORE_TOLERANCE : ℚ := 1 / 1000

/-- Models `Math.abs`. -/
def jsAbs (q : ℚ) : ℚ := if q < 0 then -q else q

/-- JavaScript string comparison `a < b` (lexicographic by code unit; the
identifiers compared here are ASCII, where code units and scalar values
agree). -/
def jsStrLtChars : List Char → List Char → Bool
  | [], [] => false
  | [], _ :: _ => true
  | _ :: _, [] => false
  | a :: as, b :: bs =>
    if a.toNat < b.toNat then true
    else if b.toNat < a.toNat then false
    else jsStrLtChars as bs

/-- Comparison `a < b` on strings, JavaScript semantics. -/
def jsStrLt (a b : String) : Bool := jsStrLtChars a.data b.data

/-- The predicate of the first `findIndex` of `applyCursorPagination`:
`Math.abs(post.relevanceScore - cursor.score) < SCORE_TOLERANCE &&
post._id.toString() === cursor.postId`. -/
def cursorMatches (score : ℚ) (postId : String) (p : PostWithScore) : Bool :=
  decide (jsAbs (p.relevanceScore - score) < SCORE_TOLERANCE) && p._id == postId

/-- The predicate of the fallback `findIndex`:
`post.relevanceScore < cursor.score || (post.relevanceScore === cursor.score
&& post._id.toString() > cursor.postId)`. -/
def cursorSuccessor (score : ℚ) (postId : String) (p : PostWithScore) : Bool :=
  decide (p.relevanceScore < score) ||
    (p.relevanceScore == score && jsStrLt postId p._id)

/-- Models `Array.prototype.findIndex`; the source's `-1` is modelled as `none`. -/
def jsFindIndex (pred : PostWithScore → Bool) : List PostWithScore → Option Nat
  | [] => none
  | p :: ps => if pred p then some 0 else (jsFindIndex pred ps).map (· + 1)

/-- The cursor-resolution phase of `applyCursorPagination` (source steps 2-3):
with no cursor the start index is `0`; with a cursor, the exact tolerance
match decides `startIndex = i + 1`, otherwise the successor search decides
it; `none` bundles the source's `startIndex === -1 || startIndex >=
posts.length` early return of an empty page. -/
def resolveStartIndex (posts : List PostWithScore) (cursor : Option (ℚ × String)) :
    Option Nat :=
  match cursor with
  | none => some 0
  | some c =>
    let found : Option Nat :=
      match jsFindIndex (cursorMatches c.1 c.2) posts with
      | some i => some (i + 1)
      | none => jsFindIndex (cursorSuccessor c.1 c.2) posts
    match found with
    | none => none
    | some s => if posts.length ≤ s then none else some s

/-- The page returned by the engine, with next/prev cursors as the
`(score, postId)` pairs that the source passes to `createCursor`. -/
structure Page where
  data : List PostWithScore
  nextCursor : Option (ℚ × String)
  prevCursor : Option (ℚ × String)
deriving DecidableEq, Repr

/-- The synthetic post id `'000000000000000000000000'` used by the sentinel
first-page cursor. -/
def zeroObjectId : String := "000000000000000000000000"

/-- The slicing-and-cursor-derivation phase of `applyCursorPagination`
(source steps 4-6), for an already-resolved start index:
`endIndex = startIndex + limit`, `data = posts.slice(startIndex, endIndex)`,
`nextCursor` anchored on the last served row when more rows remain,
`prevCursor` anchored on the row just before the previous page — or the
sentinel `(rows[0].score + 0.1, zeroObjectId)` when the previous page is the
first page.  (`Math.max(0, startIndex - limit)` is truncated `Nat`
subtraction.) -/
def paginateFrom (posts : List PostWithScore) (limit startIndex : Nat) : Page :=
  let endIndex := startIndex + limit
  let data := (posts.drop startIndex).take limit
  let lastItem := data.getD (data.length - 1) dummyPost
  let nextCursor : Option (ℚ × String) :=
    if endIndex < posts.length ∧ 0 < data.length then
      some (lastItem.relevanceScore, lastItem._id)
    else none
  let prevCursor : Option (ℚ × String) :=
    if 0 < startIndex then
      let prevPageStartIndex := startIndex - limit
      if 0 < prevPageStartIndex then
        let anchor := posts.getD (prevPageStartIndex - 1) dummyPost
        some (anchor.relevanceScore, anchor._id)
      else
        some ((posts.getD 0 dummyPost).relevanceScore + 1 / 10, zeroObjectId)
    else none
  { data := data, nextCursor := nextCursor, prevCursor := prevCursor }

/-- Engine `FeedService.applyCursorPagination(posts, query, cursor)`.  `limit?`
models `query.limit` (`undefined ↦ none`), so the effective limit is
`query.limit ?? 20`; cursor pairs are emitted where the source calls
`createCursor` (the string layer is `applyCursorPaginationS`). -/
def applyCursorPagination (posts : List PostWithScore) (limit? : Option Nat)
    (cursor : Option (ℚ × String)) : Page :=
  match resolveStartIndex posts cursor with
  | none => { data := [], nextCursor := none, prevCursor := none }
  | some startIndex => paginateFrom posts (limit?.getD 20) startIndex

/-- A page with encoded (string) cursors, as `applyCursorPagination` actually
returns them. -/
structure PageS where
  data : List PostWithScore
  nextCursor : Option String
  prevCursor : Option String
deriving DecidableEq, Repr

/-- Encoding of a cursor pair, as done by the `createCursor` calls inside
`applyCursorPagination`. -/
def encodeCursorPair (c : ℚ × String) : String := createCursor c.1 c.2

/-- The function `applyCursorPagination` with its cursors encoded to strings — the exact
return value of the source function. -/
def applyCursorPaginationS (posts : List PostWithScore) (limit? : Option Nat)
    (cursor : Option (ℚ × String)) : PageS :=
  let page := applyCursorPagination posts limit? cursor
  { data := page.data
    nextCursor := page.nextCursor.map encodeCursorPair
    prevCursor := page.prevCursor.map encodeCursorPair }

/-! ### Cache wrapper (`CacheService`) and feed orchestration (`getFeed`) -/

/-- The record `{ posts, totalCount }` as cached by `getFeed`. -/
structure CachedPostData where
  posts : List Post
  totalCount : Nat
deriving DecidableEq, Repr

/-- Outcome of an underlying cache-backend (Redis) operation: a value, or a
thrown error. -/
inductive BackendResult (α : Type) where
  | ok (value : α)
  | error
deriving DecidableEq, Repr

/-- Models `CacheService.get`: returns the backend's value on success and `null`
(`none`) when the backend throws (`catch` → "graceful degradation"). -/
def cacheServiceGet {α : Type} (r : BackendResult (Option α)) : Option α :=
  match r with
  | .ok v => v
  | .error => none

/-- Models `CacheService.set`: completes normally (returns `void`) whether or not
the backend throws (`catch` → "don't throw — cache failures shouldn't break
the app"). -/
def cacheServiceSet (_r : BackendResult Unit) : Unit := ()

/-- Stable insertion into a descending run: the inserted element goes after
every element with a greater-or-equal score. -/
def insertScoreDesc (x : PostWithScore) : List PostWithScore → List PostWithScore
  | [] => [x]
  | y :: ys =>
    if y.relevanceScore < x.relevanceScore then x :: y :: ys
    else y :: insertScoreDesc x ys

/-- The `sort((a, b) => b.relevanceScore - a.relevanceScore)` step of
`getFeed`: a stable descending sort by score, as ECMAScript's
`Array.prototype.sort` is specified to be stable. -/
def sortByScoreDesc (l : List PostWithScore) : List PostWithScore :=
  l.foldl (fun acc x => insertScoreDesc x acc) []

/-- The `pagination` block of the feed response. -/
structure FeedPaginationDto where
  nextCursor : Option String
  prevCursor : Option String
  limit : Nat
  totalCount : Nat
deriving DecidableEq, Repr

/-- The `meta` block of the feed response (`responseTime` and `timestamp`,
which read the wall clock, are not modelled). -/
structure FeedMetaDto where
  category : Option String
  cacheHit : Bool
deriving DecidableEq, Repr

/-- The feed response envelope.  `data` carries the paginated scored posts;
the presentation-only projection `transformToFeedPost` (content truncation,
display name, score rounding) is independent of the properties below and is
not modelled. -/
structure FeedResponseM where
  data : List PostWithScore
  pagination : FeedPaginationDto
  meta : FeedMetaDto
deriving DecidableEq, Repr

/-- Orchestrator `FeedService.getFeed`, with its collaborators made explicit: `scoreFn`
is `calculateRelevanceScore` at the (fixed) request time, `cacheGetResult` /
`cacheSetResult` are the cache backend's behaviour for this request, and
`storePosts` / `storeTotalCount` are what `postService.findAll` returns.
The cursor argument is the parsed `(score, postId)` pair (the HTTP layer's
wire-format validation plus the codec round-trip justify this shape). -/
def getFeed (scoreFn : Post → ℚ) (cacheGetResult : BackendResult (Option CachedPostData))
    (cacheSetResult : BackendResult Unit) (storePosts : List Post)
    (storeTotalCount : Nat) (limit? : Option Nat) (cursor : Option (ℚ × String))
    (category : Option String) : FeedResponseM :=
  let cachedData := cacheServiceGet cacheGetResult
  let cacheHit := cachedData.isSome
  let posts := match cachedData with
    | some d => d.posts
    | none => storePosts
  let totalCount := match cachedData with
    | some d => d.totalCount
    | none => storeTotalCount
  let _fill : Unit := match cachedData with
    | some _ => ()
    | none => cacheServiceSet cacheSetResult
  let postsWithScores :=
    sortByScoreDesc (posts.map (fun p => { toPost := p, relevanceScore := scoreFn p }))
  let paginatedResult := applyCursorPaginationS postsWithScores limit? cursor
  { data := paginatedResult.data
    pagination :=
      { nextCursor := paginatedResult.nextCursor
        prevCursor := paginatedResult.prevCursor
        limit := limit?.getD 20
        totalCount := totalCount }
    meta := { category := category, cacheHit := cacheHit } }

/-! ### Page iteration (for the completeness property) -/

/-- Repeatedly call the engine, starting from a given cursor, following each
returned `nextCursor`, collecting the pages; `fuel` bounds the iteration (the
completeness theorem shows `posts.length + 1` is always enough). -/
def collectPages (posts : List PostWithScore) (limit? : Option Nat) :
    Option (ℚ × String) → Nat → List (List PostWithScore)
  | _, 0 => []
  | cursor, fuel + 1 =>
    let page := applyCursorPagination posts limit? cursor
    match page.nextCursor with
    | none => [page.data]
    | some c => page.data :: collectPages posts limit? (some c) fuel

/-- All pages obtained by starting with no cursor and following every
`nextCursor`. -/
def allPages (posts : List PostWithScore) (limit? : Option Nat) :
    List (List PostWithScore) :=
  collectPages posts limit? none (posts.length + 1)

/-- A rational is decimal-representable (the value of some finite decimal
numeral, as every finite double is). -/
def IsDecimal (q : ℚ) : Prop := ∃ k : Nat, (q.den : Nat) ∣ 10 ^ k

/-! ## Helper lemmas: decimal digit lists -/

theorem foldl_digits (a : Nat) (ds : List Nat) :
    ds.foldl (fun a d => 10 * a + d) a = a * 10 ^ ds.length + natOfDigits ds := by
  induction ds generalizing a with
  | nil => simp [natOfDigits]
  | cons d ds ih =>
    simp only [List.foldl_cons, natOfDigits, List.length_cons] at *
    rw [ih (10 * a + d), ih (10 * 0 + d)]
    ring

theorem natOfDigits_append (ds es : List Nat) :
    natOfDigits (ds ++ es) = natOfDigits ds * 10 ^ es.length + natOfDigits es := by
  unfold natOfDigits
  rw [List.foldl_append, foldl_digits]
  rfl

theorem natOfDigits_single (d : Nat) : natOfDigits [d] = d := by
  simp [natOfDigits]

theorem natOfDigits_replicate_zero (z : Nat) (ds : List Nat) :
    natOfDigits (List.replicate z 0 ++ ds) = natOfDigits ds := by
  induction z with
  | zero => rfl
  | succ z ih => simpa [List.replicate_succ, natOfDigits] using ih

theorem natDigitsAux_spec (fuel : Nat) : ∀ n, n ≤ fuel →
    natOfDigits (natDigitsAux fuel n) = n ∧
    (∀ d ∈ natDigitsAux fuel n, d < 10) ∧
    natDigitsAux fuel n ≠ [] := by
  induction fuel with
  | zero =>
    intro n hn
    interval_cases n
    refine ⟨rfl, ?_, by simp [natDigitsAux]⟩
    intro d hd
    simp [natDigitsAux] at hd
    omega
  | succ fuel ih =>
    intro n hn
    by_cases h10 : n < 10
    · refine ⟨?_, ?_, ?_⟩ <;> simp [natDigitsAux, h10, natOfDigits]
    · have hlt : n / 10 < n := Nat.div_lt_self (by omega) (by omega)
      obtain ⟨hval, hdig, _hne⟩ := ih (n / 10) (by omega)
      refine ⟨?_, ?_, ?_⟩
      · rw [show natDigitsAux (fuel + 1) n = natDigitsAux fuel (n / 10) ++ [n % 10] by
          simp [natDigitsAux, h10]]
        rw [natOfDigits_append, hval, natOfDigits_single]
        simp only [List.length_cons, List.length_nil, pow_one]
        omega
      · intro d hd
        rw [show natDigitsAux (fuel + 1) n = natDigitsAux fuel (n / 10) ++ [n % 10] by
          simp [natDigitsAux, h10]] at hd
        rcases List.mem_append.1 hd with h | h
        · exact hdig d h
        · simp at h
          omega
      · simp [natDigitsAux, h10]

theorem natDigits_val (n : Nat) : natOfDigits (natDigits n) = n :=
  (natDigitsAux_spec n n le_rfl).1

theorem natDigits_lt_ten (n : Nat) : ∀ d ∈ natDigits n, d < 10 :=
  (natDigitsAux_spec n n le_rfl).2.1

theorem natDigits_ne_nil (n : Nat) : natDigits n ≠ [] :=
  (natDigitsAux_spec n n le_rfl).2.2

theorem natDigitsAux_length (fuel : Nat) : ∀ n k, n ≤ fuel → n < 10 ^ k → 1 ≤ k →
    (natDigitsAux fuel n).length ≤ k := by
  induction fuel with
  | zero =>
    intro n k hn _ hk
    interval_cases n
    simp [natDigitsAux]
    omega
  | succ fuel ih =>
    intro n k hn hnk hk
    by_cases h10 : n < 10
    · simp [natDigitsAux, h10]
      omega
    · have hk2 : 2 ≤ k := by
        by_contra hcon
        have hk1 : k = 1 := by omega
        rw [hk1, pow_one] at hnk
        omega
      have hdiv : n / 10 < 10 ^ (k - 1) := by
        rw [Nat.div_lt_iff_lt_mul (by omega : 0 < 10)]
        calc n < 10 ^ k := hnk
        _ = 10 ^ (k - 1) * 10 := by
            rw [← pow_succ]
            congr 1
            omega
      have := ih (n / 10) (k - 1) (by
        have : n / 10 < n := Nat.div_lt_self (by omega) (by omega)
        omega) hdiv (by omega)
      rw [show natDigitsAux (fuel + 1) n = natDigitsAux fuel (n / 10) ++ [n % 10] by
        simp [natDigitsAux, h10]]
      rw [List.length_append]
      simp only [List.length_cons, List.length_nil]
      omega

theorem natDigits_length (n k : Nat) (hnk : n < 10 ^ k) (hk : 1 ≤ k) :
    (natDigits n).length ≤ k :=
  natDigitsAux_length n n k le_rfl hnk hk

theorem natOfDigits_cons (d : Nat) (ds : List Nat) :
    natOfDigits (d :: ds) = d * 10 ^ ds.length + natOfDigits ds := by
  have h : natOfDigits (d :: ds) = ds.foldl (fun a d => 10 * a + d) (10 * 0 + d) := rfl
  rw [h, foldl_digits]
  norm_num

theorem natDigitsAux_bounds (fuel : Nat) : ∀ n, n ≤ fuel →
    n < 10 ^ (natDigitsAux fuel n).length ∧
    (0 < n → 10 ^ ((natDigitsAux fuel n).length - 1) ≤ n) := by
  induction fuel with
  | zero =>
    intro n hn
    interval_cases n
    refine ⟨?_, fun h => absurd h (by omega)⟩
    show (0 : Nat) < 10 ^ (natDigitsAux 0 0).length
    norm_num [natDigitsAux]
  | succ fuel ih =>
    intro n hn
    by_cases h10 : n < 10
    · have hlen : (natDigitsAux (fuel + 1) n).length = 1 := by
        simp [natDigitsAux, h10]
      rw [hlen]
      refine ⟨by omega, fun hpos => by simpa using hpos⟩
    · have hlt : n / 10 < n := Nat.div_lt_self (by omega) (by omega)
      obtain ⟨hub, hlb⟩ := ih (n / 10) (by omega)
      have hstep : natDigitsAux (fuel + 1) n = natDigitsAux fuel (n / 10) ++ [n % 10] := by
        simp [natDigitsAux, h10]
      have hL1 : 1 ≤ (natDigitsAux fuel (n / 10)).length :=
        List.length_pos.2 (natDigitsAux_spec fuel (n / 10) (by omega)).2.2
      rw [hstep, List.length_append]
      simp only [List.length_cons, List.length_nil, Nat.zero_add]
      constructor
      · have hsucc : n / 10 + 1 ≤ 10 ^ (natDigitsAux fuel (n / 10)).length := hub
        calc n = 10 * (n / 10) + n % 10 := (Nat.div_add_mod n 10).symm
        _ < 10 * (n / 10 + 1) := by
            have : n % 10 < 10 := Nat.mod_lt _ (by omega)
            omega
        _ ≤ 10 * 10 ^ (natDigitsAux fuel (n / 10)).length :=
            Nat.mul_le_mul_left 10 hsucc
        _ = 10 ^ ((natDigitsAux fuel (n / 10)).length + 1) := by
            rw [pow_succ]
            ring
      · intro _
        have hdp : 0 < n / 10 := Nat.div_pos (by omega) (by omega)
        have hlb2 := hlb hdp
        have h1 : 10 ^ (natDigitsAux fuel (n / 10)).length =
            10 * 10 ^ ((natDigitsAux fuel (n / 10)).length - 1) := by
          conv_lhs => rw [show (natDigitsAux fuel (n / 10)).length =
            ((natDigitsAux fuel (n / 10)).length - 1) + 1 by omega]
          rw [pow_succ]
          ring
        have h2 : 10 * (n / 10) ≤ n := Nat.mul_div_le n 10
        calc 10 ^ ((natDigitsAux fuel (n / 10)).length + 1 - 1) =
            10 ^ (natDigitsAux fuel (n / 10)).length := by
              rw [Nat.add_sub_cancel]
        _ = 10 * 10 ^ ((natDigitsAux fuel (n / 10)).length - 1) := h1
        _ ≤ 10 * (n / 10) := Nat.mul_le_mul_left 10 hlb2
        _ ≤ n := h2

theorem natDigits_lt (n : Nat) : n < 10 ^ (natDigits n).length :=
  (natDigitsAux_bounds n n le_rfl).1

theorem natDigits_ge (n : Nat) (h : 0 < n) : 10 ^ ((natDigits n).length - 1) ≤ n :=
  (natDigitsAux_bounds n n le_rfl).2 h

/-! ## Helper lemmas: factor stripping and decimal exponents -/

theorem stripFactorAux_spec (p : Nat) (hp : 1 < p) (fuel : Nat) : ∀ n, 0 < n → n ≤ fuel →
    n = p ^ (stripFactorAux p fuel n).1 * (stripFactorAux p fuel n).2 ∧
    ¬ p ∣ (stripFactorAux p fuel n).2 := by
  induction fuel with
  | zero =>
    intro n h0 hn
    omega
  | succ fuel ih =>
    intro n h0 hn
    by_cases hcond : 1 < p ∧ 1 < n ∧ n % p = 0
    · obtain ⟨-, hn1, hmod⟩ := hcond
      have hpd : p ∣ n := Nat.dvd_of_mod_eq_zero hmod
      have hdivpos : 0 < n / p := Nat.div_pos (Nat.le_of_dvd (by omega) hpd) (by omega)
      have hdivlt : n / p < n := Nat.div_lt_self (by omega) hp
      obtain ⟨hval, hnd⟩ := ih (n / p) hdivpos (by omega)
      have hstep : stripFactorAux p (fuel + 1) n =
          ((stripFactorAux p fuel (n / p)).1 + 1, (stripFactorAux p fuel (n / p)).2) := by
        simp [stripFactorAux, hp, hn1, hmod]
      rw [hstep]
      refine ⟨?_, hnd⟩
      calc n = p * (n / p) := (Nat.mul_div_cancel' hpd).symm
      _ = p * (p ^ (stripFactorAux p fuel (n / p)).1 * (stripFactorAux p fuel (n / p)).2) := by
          rw [← hval]
      _ = p ^ ((stripFactorAux p fuel (n / p)).1 + 1) * (stripFactorAux p fuel (n / p)).2 := by
          rw [pow_succ]
          ring
    · have hstep : stripFactorAux p (fuel + 1) n = (0, n) := by
        simp only [stripFactorAux, if_neg hcond]
      rw [hstep]
      refine ⟨by simp, ?_⟩
      intro hdvd
      have hle := Nat.le_of_dvd h0 hdvd
      obtain ⟨c, rfl⟩ := hdvd
      exact hcond ⟨hp, lt_of_lt_of_le hp hle, Nat.mul_mod_right p c⟩

theorem stripFactor_spec (p n : Nat) (hp : 1 < p) (h0 : 0 < n) :
    n = p ^ (stripFactor p n).1 * (stripFactor p n).2 ∧ ¬ p ∣ (stripFactor p n).2 :=
  stripFactorAux_spec p hp n n h0 le_rfl

theorem decExp_dvd (den : Nat) (h0 : 0 < den) (e : Nat) (he : decExp den = some e) :
    den ∣ 10 ^ e := by
  obtain ⟨h2val, h2nd⟩ := stripFactor_spec 2 den (by omega) h0
  have hr2pos : 0 < (stripFactor 2 den).2 := by
    rcases Nat.eq_zero_or_pos (stripFactor 2 den).2 with h | h
    · rw [h, mul_zero] at h2val
      omega
    · exact h
  obtain ⟨h5val, h5nd⟩ := stripFactor_spec 5 (stripFactor 2 den).2 (by omega) hr2pos
  simp only [decExp] at he
  split at he
  case isTrue hone =>
    have heq : e = max (stripFactor 2 den).1 (stripFactor 5 (stripFactor 2 den).2).1 :=
      (Option.some.inj he).symm
    rw [hone, mul_one] at h5val
    have hden : den = 2 ^ (stripFactor 2 den).1 * 5 ^ (stripFactor 5 (stripFactor 2 den).2).1 := by
      conv_lhs => rw [h2val]
      exact congrArg (fun x => 2 ^ (stripFactor 2 den).1 * x) h5val
    have h10 : (10 : Nat) ^ max (stripFactor 2 den).1 (stripFactor 5 (stripFactor 2 den).2).1 =
        2 ^ max (stripFactor 2 den).1 (stripFactor 5 (stripFactor 2 den).2).1 *
          5 ^ max (stripFactor 2 den).1 (stripFactor 5 (stripFactor 2 den).2).1 := by
      rw [show (10 : Nat) = 2 * 5 from rfl, mul_pow]
    calc den = 2 ^ (stripFactor 2 den).1 * 5 ^ (stripFactor 5 (stripFactor 2 den).2).1 := hden
    _ ∣ 2 ^ max (stripFactor 2 den).1 (stripFactor 5 (stripFactor 2 den).2).1 *
          5 ^ max (stripFactor 2 den).1 (stripFactor 5 (stripFactor 2 den).2).1 :=
        mul_dvd_mul (pow_dvd_pow 2 (le_max_left _ _)) (pow_dvd_pow 5 (le_max_right _ _))
    _ = 10 ^ max (stripFactor 2 den).1 (stripFactor 5 (stripFactor 2 den).2).1 := h10.symm
    _ = 10 ^ e := by rw [heq]
  case isFalse => exact absurd he (by simp)

theorem decExp_isSome (den : Nat) (h0 : 0 < den) (k : Nat) (hk : den ∣ 10 ^ k) :
    ∃ e, decExp den = some e := by
  obtain ⟨h2val, h2nd⟩ := stripFactor_spec 2 den (by omega) h0
  have hr2pos : 0 < (stripFactor 2 den).2 := by
    rcases Nat.eq_zero_or_pos (stripFactor 2 den).2 with h | h
    · rw [h, mul_zero] at h2val
      omega
    · exact h
  obtain ⟨h5val, h5nd⟩ := stripFactor_spec 5 (stripFactor 2 den).2 (by omega) hr2pos
  have h2ndr : ¬ 2 ∣ (stripFactor 5 (stripFactor 2 den).2).2 := by
    intro hdvd
    refine h2nd ?_
    rw [h5val]
    exact Dvd.dvd.mul_left hdvd _
  have hrden : (stripFactor 5 (stripFactor 2 den).2).2 ∣ den := by
    conv_rhs => rw [h2val, h5val]
    exact Dvd.dvd.mul_left (Dvd.intro_left _ rfl) _
  have hr10k : (stripFactor 5 (stripFactor 2 den).2).2 ∣ 10 ^ k := hrden.trans hk
  have hcop : Nat.Coprime (stripFactor 5 (stripFactor 2 den).2).2 10 := by
    have c2 : Nat.Coprime (stripFactor 5 (stripFactor 2 den).2).2 2 :=
      ((Nat.Prime.coprime_iff_not_dvd Nat.prime_two).2 h2ndr).symm
    have c5 : Nat.Coprime (stripFactor 5 (stripFactor 2 den).2).2 5 :=
      ((Nat.Prime.coprime_iff_not_dvd Nat.prime_five).2 h5nd).symm
    have h25 : Nat.Coprime (stripFactor 5 (stripFactor 2 den).2).2 (2 * 5) :=
      Nat.Coprime.mul_right c2 c5
    simpa using h25
  have hr1 : (stripFactor 5 (stripFactor 2 den).2).2 = 1 := by
    have hcopk : Nat.Coprime (stripFactor 5 (stripFactor 2 den).2).2 (10 ^ k) :=
      Nat.Coprime.pow_right k hcop
    have hdg : (stripFactor 5 (stripFactor 2 den).2).2 ∣
        Nat.gcd (stripFactor 5 (stripFactor 2 den).2).2 (10 ^ k) :=
      Nat.dvd_gcd dvd_rfl hr10k
    rw [Nat.Coprime] at hcopk
    rw [hcopk] at hdg
    exact Nat.dvd_one.1 hdg
  exact ⟨max (stripFactor 2 den).1 (stripFactor 5 (stripFactor 2 den).2).1, by
    simp only [decExp]
    rw [if_pos hr1]⟩

/-! ## Helper lemmas: character lists and numeral parsing -/

theorem takeWhile_all {α : Type} (p : α → Bool) (l : List α) (h : ∀ c ∈ l, p c = true) :
    l.takeWhile p = l ∧ l.dropWhile p = [] := by
  induction l with
  | nil => simp
  | cons c cs ih =>
    have hc := h c (by simp)
    obtain ⟨h1, h2⟩ := ih (fun x hx => h x (by simp [hx]))
    simp [List.takeWhile_cons, List.dropWhile_cons, hc, h1, h2]

theorem takeWhile_append_stop {α : Type} (p : α → Bool) (a : List α) (b : α) (c : List α)
    (ha : ∀ x ∈ a, p x = true) (hb : p b = false) :
    (a ++ b :: c).takeWhile p = a ∧ (a ++ b :: c).dropWhile p = b :: c := by
  induction a with
  | nil => simp [List.takeWhile_cons, List.dropWhile_cons, hb]
  | cons x xs ih =>
    have hx := ha x (by simp)
    obtain ⟨h1, h2⟩ := ih (fun y hy => ha y (by simp [hy]))
    simp [List.takeWhile_cons, List.dropWhile_cons, hx, h1, h2]

theorem isEmpty_false_of_ne_nil {α : Type} {l : List α} (h : l ≠ []) : l.isEmpty = false := by
  cases l with
  | nil => exact absurd rfl h
  | cons x xs => rfl

theorem digitToChar_props : ∀ d < 10,
    isDigitChar (digitToChar d) = true ∧ charToDigit (digitToChar d) = d ∧
    digitToChar d ≠ '_' ∧ digitToChar d ≠ '.' ∧ digitToChar d ≠ '-' ∧ digitToChar d ≠ '+' := by
  decide

theorem natChars_ne_nil (n : Nat) : natChars n ≠ [] := by
  simp only [natChars, ne_eq, List.map_eq_nil_iff]
  exact natDigits_ne_nil n

theorem natChars_all_digit (n : Nat) : ∀ c ∈ natChars n, isDigitChar c = true := by
  intro c hc
  obtain ⟨d, hd, rfl⟩ := List.mem_map.1 hc
  exact (digitToChar_props d (natDigits_lt_ten n d hd)).1

theorem natChars_no_underscore (n : Nat) : ∀ c ∈ natChars n, c ≠ '_' := by
  intro c hc
  obtain ⟨d, hd, rfl⟩ := List.mem_map.1 hc
  exact (digitToChar_props d (natDigits_lt_ten n d hd)).2.2.1

theorem map_charToDigit_natChars (n : Nat) : (natChars n).map charToDigit = natDigits n := by
  simp only [natChars, List.map_map]
  have : ∀ d ∈ natDigits n, (charToDigit ∘ digitToChar) d = id d := fun d hd =>
    (digitToChar_props d (natDigits_lt_ten n d hd)).2.1
  rw [List.map_congr_left this, List.map_id]

theorem pow10_zero : pow10 0 = 1 := rfl

theorem pow10_eq_zpow (i : Int) : pow10 i = (10 : ℚ) ^ i := by
  rcases le_or_lt 0 i with h | h
  · rw [pow10, if_pos h, ← zpow_natCast, Int.toNat_of_nonneg h]
  · rw [pow10, if_neg (not_le.2 h), ← zpow_natCast,
      Int.toNat_of_nonneg (by omega : (0:Int) ≤ -i), ← zpow_neg, neg_neg]

theorem pow10_sub_nat (a b : Nat) :
    pow10 ((a : Int) - (b : Int)) = (10 : ℚ) ^ a / 10 ^ b := by
  rw [pow10_eq_zpow, zpow_sub₀ (by norm_num : (10:ℚ) ≠ 0), zpow_natCast, zpow_natCast]

theorem takeWhile_append_gen {α : Type} (p : α → Bool) (a b : List α)
    (ha : ∀ x ∈ a, p x = true) (hb : ∀ c r, b = c :: r → p c = false) :
    (a ++ b).takeWhile p = a ∧ (a ++ b).dropWhile p = b := by
  cases b with
  | nil =>
    rw [List.append_nil]
    obtain ⟨h1, h2⟩ := takeWhile_all p a ha
    exact ⟨h1, h2⟩
  | cons c r => exact takeWhile_append_stop p a c r ha (hb c r rfl)

theorem parseUnsignedDec_int_tail (n : Nat) (tail : List Char)
    (htail : ∀ c r, tail = c :: r → isDigitChar c = false)
    (hdot : ∀ c r, tail = c :: r → ¬ c = '.') :
    parseUnsignedDec (natChars n ++ tail) = some ((n : ℚ) * pow10 (expValOf tail)) := by
  obtain ⟨ht, hd⟩ := takeWhile_append_gen isDigitChar (natChars n) tail
    (natChars_all_digit n) htail
  have hne : ((natChars n).map charToDigit).isEmpty = false := by
    apply isEmpty_false_of_ne_nil
    simp only [ne_eq, List.map_eq_nil_iff]
    exact natChars_ne_nil n
  have hfs : fracSplit tail = ([], tail) := by
    cases tail with
    | nil => rfl
    | cons c r =>
      simp only [fracSplit]
      rw [if_neg (hdot c r rfl)]
  simp only [parseUnsignedDec, ht, hd, hfs]
  rw [if_neg (by simp [hne])]
  rw [map_charToDigit_natChars, natDigits_val]
  norm_num [natOfDigits]

theorem parseUnsignedDec_frac_tail (I : Nat) (fcs tail : List Char)
    (hall : ∀ c ∈ fcs, isDigitChar c = true)
    (htail : ∀ c r, tail = c :: r → isDigitChar c = false) :
    parseUnsignedDec (natChars I ++ '.' :: (fcs ++ tail)) =
      some (((I : ℚ) + (natOfDigits (fcs.map charToDigit) : ℚ) / 10 ^ fcs.length) *
        pow10 (expValOf tail)) := by
  obtain ⟨ht, hd⟩ := takeWhile_append_stop isDigitChar (natChars I) '.' (fcs ++ tail)
    (natChars_all_digit I) (by decide)
  obtain ⟨hft, hfd⟩ := takeWhile_append_gen isDigitChar fcs tail hall htail
  have hne : ((natChars I).map charToDigit).isEmpty = false := by
    apply isEmpty_false_of_ne_nil
    simp only [ne_eq, List.map_eq_nil_iff]
    exact natChars_ne_nil I
  have hfs : fracSplit ('.' :: (fcs ++ tail)) = (fcs, tail) := by
    rw [show fracSplit ('.' :: (fcs ++ tail)) =
      ((fcs ++ tail).takeWhile isDigitChar, (fcs ++ tail).dropWhile isDigitChar) from rfl,
      hft, hfd]
  simp only [parseUnsignedDec, ht, hd, hfs]
  rw [if_neg (by simp [hne])]
  rw [map_charToDigit_natChars, natDigits_val, List.length_map]

theorem parseUnsignedDec_natChars (n : Nat) :
    parseUnsignedDec (natChars n) = some (n : ℚ) := by
  have h := parseUnsignedDec_int_tail n [] (fun c r hcon => by simp at hcon)
    (fun c r hcon => by simp at hcon)
  rw [List.append_nil] at h
  rw [h, show expValOf [] = 0 from rfl, pow10_zero, mul_one]

theorem parseUnsignedDec_frac (I : Nat) (fcs : List Char)
    (hall : ∀ c ∈ fcs, isDigitChar c = true) :
    parseUnsignedDec (natChars I ++ '.' :: fcs) =
      some ((I : ℚ) + (natOfDigits (fcs.map charToDigit) : ℚ) / 10 ^ fcs.length) := by
  have h := parseUnsignedDec_frac_tail I fcs [] hall (fun c r hcon => by simp at hcon)
  rw [List.append_nil] at h
  rw [h, show expValOf [] = 0 from rfl, pow10_zero, mul_one]

theorem map_roundtrip_digits (ds : List Nat) (h : ∀ d ∈ ds, d < 10) :
    (ds.map digitToChar).map charToDigit = ds := by
  rw [List.map_map]
  have hcd : ∀ d ∈ ds, (charToDigit ∘ digitToChar) d = id d := fun d hd =>
    (digitToChar_props d (h d hd)).2.1
  rw [List.map_congr_left hcd, List.map_id]

theorem expDigitsVal_natChars (x : Nat) : expDigitsVal (natChars x) = some x := by
  obtain ⟨ht, -⟩ := takeWhile_all isDigitChar (natChars x) (natChars_all_digit x)
  simp only [expDigitsVal, ht, isEmpty_false_of_ne_nil (natChars_ne_nil x),
    Bool.false_eq_true, if_false, map_charToDigit_natChars, natDigits_val]

theorem expSignedVal_minus (r2 : List Char) :
    expSignedVal ('-' :: r2) = -((expDigitsVal r2).getD 0 : Int) := by
  show (if ('-' : Char) = '+' then ((expDigitsVal r2).getD 0 : Int)
    else if ('-' : Char) = '-' then -((expDigitsVal r2).getD 0 : Int)
    else ((expDigitsVal ('-' :: r2)).getD 0 : Int)) = _
  rw [if_neg (by decide : ¬ ('-' : Char) = '+'), if_pos rfl]

theorem expSignedVal_plus (r2 : List Char) :
    expSignedVal ('+' :: r2) = ((expDigitsVal r2).getD 0 : Int) := by
  show (if ('+' : Char) = '+' then ((expDigitsVal r2).getD 0 : Int)
    else if ('+' : Char) = '-' then -((expDigitsVal r2).getD 0 : Int)
    else ((expDigitsVal ('+' :: r2)).getD 0 : Int)) = _
  rw [if_pos rfl]

theorem expValOf_expo (ex : Int) :
    expValOf ('e' :: (if ex < 0 then '-' else '+') :: natChars ex.natAbs) = ex := by
  have h1 : expValOf ('e' :: (if ex < 0 then '-' else '+') :: natChars ex.natAbs) =
      expSignedVal ((if ex < 0 then '-' else '+') :: natChars ex.natAbs) := by
    simp [expValOf]
  rw [h1]
  rcases lt_or_le ex 0 with h | h
  · rw [if_pos h, expSignedVal_minus, expDigitsVal_natChars, Option.getD_some]
    omega
  · rw [if_neg (not_lt.2 h), expSignedVal_plus, expDigitsVal_natChars, Option.getD_some]
    omega

theorem parseUnsignedDec_chars_tail (ics fcs tail : List Char)
    (hi : ∀ c ∈ ics, isDigitChar c = true) (hine : ics ≠ [])
    (hall : ∀ c ∈ fcs, isDigitChar c = true)
    (htail : ∀ c r, tail = c :: r → isDigitChar c = false) :
    parseUnsignedDec (ics ++ '.' :: (fcs ++ tail)) =
      some (((natOfDigits (ics.map charToDigit) : ℚ) +
        (natOfDigits (fcs.map charToDigit) : ℚ) / 10 ^ fcs.length) *
        pow10 (expValOf tail)) := by
  obtain ⟨ht, hd⟩ := takeWhile_append_stop isDigitChar ics '.' (fcs ++ tail) hi (by decide)
  obtain ⟨hft, hfd⟩ := takeWhile_append_gen isDigitChar fcs tail hall htail
  have hne : (ics.map charToDigit).isEmpty = false := by
    apply isEmpty_false_of_ne_nil
    simp only [ne_eq, List.map_eq_nil_iff]
    exact hine
  have hfs : fracSplit ('.' :: (fcs ++ tail)) = (fcs, tail) := by
    rw [show fracSplit ('.' :: (fcs ++ tail)) =
      ((fcs ++ tail).takeWhile isDigitChar, (fcs ++ tail).dropWhile isDigitChar) from rfl,
      hft, hfd]
  simp only [parseUnsignedDec, ht, hd, hfs]
  rw [if_neg (by simp [hne])]
  rw [List.length_map]

theorem head_digit_of_natChars (x : Nat) :
    ∃ c r, natChars x = c :: r ∧ isDigitChar c = true := by
  cases hx : natChars x with
  | nil => exact absurd hx (natChars_ne_nil x)
  | cons c r =>
    refine ⟨c, r, rfl, natChars_all_digit x c ?_⟩
    rw [hx]
    exact List.mem_cons_self c r

/-- Reparsing exponential notation: for a positive significand `s` with `k`
digits and any exponent `ex`, parsing `expoChars s ex` recovers
`s / 10 ^ (k - 1) * 10 ^ ex` — the value the notation denotes. -/
theorem parse_expoChars (s : Nat) (hs : 0 < s) (ex : Int) :
    parseUnsignedDec (expoChars s ex) =
      some ((s : ℚ) / 10 ^ ((natDigits s).length - 1) * pow10 ex) := by
  have htail : ∀ c r, ('e' :: (if ex < 0 then '-' else '+') :: natChars ex.natAbs) = c :: r →
      isDigitChar c = false := by
    intro c r hcr
    cases hcr
    decide
  have hdot : ∀ c r, ('e' :: (if ex < 0 then '-' else '+') :: natChars ex.natAbs) = c :: r →
      ¬ c = '.' := by
    intro c r hcr
    cases hcr
    decide
  cases hds : natDigits s with
  | nil => exact absurd hds (natDigits_ne_nil s)
  | cons d0 ds0 =>
    have hchars : natChars s = digitToChar d0 :: ds0.map digitToChar := by
      rw [natChars, hds, List.map_cons]
    have hd0 : d0 < 10 := natDigits_lt_ten s d0 (by rw [hds]; exact List.mem_cons_self d0 ds0)
    cases ds0 with
    | nil =>
      have hexpo : expoChars s ex =
          natChars s ++ 'e' :: (if ex < 0 then '-' else '+') :: natChars ex.natAbs := by
        simp only [expoChars]
        rw [hchars]
        simp
      rw [hexpo, parseUnsignedDec_int_tail s _ htail hdot, expValOf_expo]
      norm_num
    | cons f0 fs0 =>
      have hexpo : expoChars s ex =
          [digitToChar d0] ++ '.' :: (((f0 :: fs0).map digitToChar) ++
            ('e' :: (if ex < 0 then '-' else '+') :: natChars ex.natAbs)) := by
        simp only [expoChars]
        rw [hchars]
        simp
      have hi : ∀ c ∈ [digitToChar d0], isDigitChar c = true := by
        intro c hc
        rw [List.mem_singleton.1 hc]
        exact (digitToChar_props d0 hd0).1
      have hall : ∀ c ∈ (f0 :: fs0).map digitToChar, isDigitChar c = true := by
        intro c hc
        obtain ⟨d, hd, rfl⟩ := List.mem_map.1 hc
        exact (digitToChar_props d (natDigits_lt_ten s d
          (by rw [hds]; exact List.mem_cons_of_mem d0 hd))).1
      rw [hexpo, parseUnsignedDec_chars_tail [digitToChar d0] ((f0 :: fs0).map digitToChar)
        _ hi (by simp) hall htail, expValOf_expo]
      have hround : ((f0 :: fs0).map digitToChar).map charToDigit = f0 :: fs0 :=
        map_roundtrip_digits _ (fun d hd => natDigits_lt_ten s d
          (by rw [hds]; exact List.mem_cons_of_mem d0 hd))
      have hround0 : charToDigit (digitToChar d0) = d0 := (digitToChar_props d0 hd0).2.1
      rw [show List.map charToDigit [digitToChar d0] = [charToDigit (digitToChar d0)] from rfl,
        natOfDigits_single, hround0, hround, List.length_map]
      congr 1
      congr 1
      have hs_eq : s = d0 * 10 ^ (f0 :: fs0).length + natOfDigits (f0 :: fs0) := by
        conv_lhs => rw [← natDigits_val s, hds]
        exact natOfDigits_cons d0 (f0 :: fs0)
      have hlen : (d0 :: f0 :: fs0).length - 1 = (f0 :: fs0).length := by
        simp
      rw [hlen, hs_eq]
      have hpe : ((10:ℚ) ^ (f0 :: fs0).length) ≠ 0 := by positivity
      push_cast
      field_simp

theorem expoChars_head (s : Nat) (ex : Int) :
    ∃ c r, expoChars s ex = c :: r ∧ isDigitChar c = true := by
  cases hx : natChars s with
  | nil => exact absurd hx (natChars_ne_nil s)
  | cons d rest =>
    have hd : isDigitChar d = true := natChars_all_digit s d
      (by rw [hx]; exact List.mem_cons_self d rest)
    simp only [expoChars, hx]
    by_cases hre : rest.isEmpty
    · rw [if_pos hre]
      exact ⟨d, _, rfl, hd⟩
    · rw [if_neg hre]
      exact ⟨d, _, rfl, hd⟩

theorem expoChars_no_underscore (s : Nat) (ex : Int) :
    ∀ c ∈ expoChars s ex, c ≠ '_' := by
  have hsign : ¬ (if ex < 0 then '-' else '+') = '_' := by
    by_cases hlt : ex < 0
    · rw [if_pos hlt]
      decide
    · rw [if_neg hlt]
      decide
  intro c hc
  cases hx : natChars s with
  | nil => exact absurd hx (natChars_ne_nil s)
  | cons d rest =>
    have hdig : ∀ x ∈ d :: rest, x ≠ '_' := by
      intro x hxm
      exact natChars_no_underscore s x (by rw [hx]; exact hxm)
    simp only [expoChars, hx, List.mem_append, List.mem_cons] at hc
    rcases hc with hc | hc | hc | hc
    · by_cases hre : rest.isEmpty
      · rw [if_pos hre] at hc
        rw [List.mem_singleton.1 hc]
        exact hdig d (List.mem_cons_self d rest)
      · rw [if_neg hre] at hc
        rcases List.mem_cons.1 hc with hceq | hc2
        · rw [hceq]
          exact hdig d (List.mem_cons_self d rest)
        · rcases List.mem_cons.1 hc2 with hceq | hc3
          · rw [hceq]
            decide
          · exact hdig c (List.mem_cons_of_mem d hc3)
    · rw [hc]
      decide
    · rw [hc]
      exact hsign
    · exact natChars_no_underscore ex.natAbs c hc

theorem padZeros_all_digit (z : Nat) : ∀ c ∈ padZeros z, isDigitChar c = true := by
  intro c hc
  rw [List.eq_of_mem_replicate hc]
  decide

theorem map_charToDigit_padZeros (z : Nat) :
    (padZeros z).map charToDigit = List.replicate z 0 := by
  simp only [padZeros, List.map_replicate]
  rfl

/-- Parsing, shape and underscore-freeness for the fractional rendering
`natChars I ++ "." ++ padZeros (e - |digits F|) ++ natChars F`. -/
theorem render_frac_spec (I F e : Nat) (hF : F < 10 ^ e) (he : 1 ≤ e) :
    parseUnsignedDec (natChars I ++ '.' :: (padZeros (e - (natDigits F).length) ++ natChars F)) =
      some ((I : ℚ) + (F : ℚ) / 10 ^ e) ∧
    isScoreChars (natChars I ++ '.' :: (padZeros (e - (natDigits F).length) ++ natChars F)) = true ∧
    (∀ c ∈ natChars I ++ '.' :: (padZeros (e - (natDigits F).length) ++ natChars F), c ≠ '_') := by
  have hallf : ∀ c ∈ padZeros (e - (natDigits F).length) ++ natChars F,
      isDigitChar c = true := by
    intro c hc
    rcases List.mem_append.1 hc with h | h
    · exact padZeros_all_digit _ c h
    · exact natChars_all_digit _ c h
  have hne : padZeros (e - (natDigits F).length) ++ natChars F ≠ [] := by
    intro hcon
    rw [List.append_eq_nil] at hcon
    exact natChars_ne_nil _ hcon.2
  have hlenF : (natDigits F).length ≤ e := natDigits_length F e hF he
  have hlen : (padZeros (e - (natDigits F).length) ++ natChars F).length = e := by
    rw [List.length_append]
    simp only [padZeros, List.length_replicate, natChars, List.length_map]
    omega
  have hmap : (padZeros (e - (natDigits F).length) ++ natChars F).map charToDigit =
      List.replicate (e - (natDigits F).length) 0 ++ natDigits F := by
    rw [List.map_append, map_charToDigit_padZeros, map_charToDigit_natChars]
  refine ⟨?_, ?_, ?_⟩
  · rw [parseUnsignedDec_frac _ _ hallf, hmap, natOfDigits_replicate_zero, hlen,
      natDigits_val]
  · obtain ⟨ht, hd⟩ := takeWhile_append_stop isDigitChar (natChars I) '.'
      (padZeros (e - (natDigits F).length) ++ natChars F) (natChars_all_digit I) (by decide)
    have htail : isScoreTail ('.' :: (padZeros (e - (natDigits F).length) ++ natChars F)) =
        true := by
      simp only [isScoreTail, beq_self_eq_true, Bool.true_and, Bool.and_eq_true,
        Bool.not_eq_true', List.all_eq_true]
      exact ⟨isEmpty_false_of_ne_nil hne, fun c hc => hallf c hc⟩
    simp only [isScoreChars, ht, hd, htail, isEmpty_false_of_ne_nil (natChars_ne_nil I),
      Bool.not_false, Bool.and_self]
  · intro c hc
    rcases List.mem_append.1 hc with h | h
    · exact natChars_no_underscore _ c h
    · rcases List.mem_cons.1 h with h | h
      · subst h
        decide
      · rcases List.mem_append.1 h with h | h
        · intro hcon
          subst hcon
          exact absurd (List.eq_of_mem_replicate h) (by decide)
        · exact natChars_no_underscore _ c h

theorem num_shift_eq (q : ℚ) (hq : 0 ≤ q) (e : Nat) (hdvd : q.den ∣ 10 ^ e) :
    ((q.num.natAbs * (10 ^ e / q.den) : Nat) : ℚ) = q * 10 ^ e := by
  have hden_ne : ((q.den : ℚ)) ≠ 0 := by
    exact_mod_cast q.den_nz
  have hnum : ((q.num.natAbs : ℤ) : ℚ) = (q.num : ℚ) := by
    rw [Int.natAbs_of_nonneg (Rat.num_nonneg.2 hq)]
  rw [Nat.cast_mul, Nat.cast_div hdvd hden_ne]
  have h1 : ((q.num.natAbs : Nat) : ℚ) = (q.num : ℚ) := by
    rwa [Int.cast_natCast] at hnum
  have h2 : ((10 ^ e : Nat) : ℚ) = 10 ^ e := by push_cast; ring
  rw [h1, h2]
  calc (q.num : ℚ) * ((10:ℚ) ^ e / (q.den : ℚ))
      = ((q.num : ℚ) / (q.den : ℚ)) * 10 ^ e := by ring
  _ = q * 10 ^ e := by rw [Rat.num_div_den]

/-- Unfolding of `renderScore` on a non-negative score: the sign prefix is
empty and the decimal exponent of the denominator is `e`. -/
theorem renderScore_cases (q : ℚ) (hq : 0 ≤ q) (e : Nat) (he : decExp q.den = some e) :
    renderScore q =
      (if ¬ q.num.natAbs * (10 ^ e / q.den) = 0 ∧
          (((natDigits (stripFactor 10 (q.num.natAbs * (10 ^ e / q.den))).2).length : Int) +
              ((stripFactor 10 (q.num.natAbs * (10 ^ e / q.den))).1 : Int) - (e : Int) ≤ -6 ∨
            22 ≤ ((natDigits (stripFactor 10 (q.num.natAbs * (10 ^ e / q.den))).2).length : Int) +
              ((stripFactor 10 (q.num.natAbs * (10 ^ e / q.den))).1 : Int) - (e : Int))
       then
        expoChars (stripFactor 10 (q.num.natAbs * (10 ^ e / q.den))).2
          (((natDigits (stripFactor 10 (q.num.natAbs * (10 ^ e / q.den))).2).length : Int) +
            ((stripFactor 10 (q.num.natAbs * (10 ^ e / q.den))).1 : Int) - (e : Int) - 1)
       else if e = 0 then natChars (q.num.natAbs * (10 ^ e / q.den))
       else
        natChars (q.num.natAbs * (10 ^ e / q.den) / 10 ^ e) ++ '.' ::
          (padZeros (e - (natDigits (q.num.natAbs * (10 ^ e / q.den) % 10 ^ e)).length) ++
            natChars (q.num.natAbs * (10 ^ e / q.den) % 10 ^ e))) := by
  have hsign : ¬ q < 0 := not_lt.2 hq
  simp only [renderScore, he, Option.getD_some, if_neg hsign, List.nil_append,
    List.append_assoc, List.cons_append, List.nil_append]

/-- Core correctness of the rendered numeral, over all three regimes
(integer, fractional, exponential): it reparses to exactly the value it
encodes, starts with a digit, and contains no underscore. -/
theorem render_body_spec (q : ℚ) (m e : Nat) (hm : (m : ℚ) = q * 10 ^ e) (cs : List Char)
    (hcs : cs =
      (if ¬ m = 0 ∧
          (((natDigits (stripFactor 10 m).2).length : Int) +
              ((stripFactor 10 m).1 : Int) - (e : Int) ≤ -6 ∨
            22 ≤ ((natDigits (stripFactor 10 m).2).length : Int) +
              ((stripFactor 10 m).1 : Int) - (e : Int))
       then
        expoChars (stripFactor 10 m).2
          (((natDigits (stripFactor 10 m).2).length : Int) +
            ((stripFactor 10 m).1 : Int) - (e : Int) - 1)
       else if e = 0 then natChars m
       else
        natChars (m / 10 ^ e) ++ '.' ::
          (padZeros (e - (natDigits (m % 10 ^ e)).length) ++ natChars (m % 10 ^ e)))) :
    parseUnsignedDec cs = some q ∧
    (∃ c r, cs = c :: r ∧ isDigitChar c = true) ∧
    (∀ c ∈ cs, c ≠ '_') := by
  obtain ⟨z, s, hsz⟩ : ∃ z s, stripFactor 10 m = (z, s) := ⟨_, _, rfl⟩
  simp only [hsz] at hcs
  by_cases hexp : ¬ m = 0 ∧ (((natDigits s).length : Int) + (z : Int) - (e : Int) ≤ -6 ∨
      22 ≤ ((natDigits s).length : Int) + (z : Int) - (e : Int))
  · rw [if_pos hexp] at hcs
    subst hcs
    have hmpos : 0 < m := Nat.pos_of_ne_zero hexp.1
    obtain ⟨hmzs, -⟩ := stripFactor_spec 10 m (by norm_num) hmpos
    rw [hsz] at hmzs
    have hspos : 0 < s := by
      rcases Nat.eq_zero_or_pos s with h0 | h
      · exfalso
        rw [h0, Nat.mul_zero] at hmzs
        exact absurd hmzs (Nat.pos_iff_ne_zero.1 hmpos)
      · exact h
    refine ⟨?_, expoChars_head s _, expoChars_no_underscore s _⟩
    rw [parse_expoChars s hspos _]
    congr 1
    have hk1 : 1 ≤ (natDigits s).length := List.length_pos.2 (natDigits_ne_nil s)
    have h10 : (10:ℚ) ≠ 0 := by norm_num
    have hpe : ((10:ℚ) ^ e) ≠ 0 := by positivity
    have hmQ : (m : ℚ) = 10 ^ z * (s : ℚ) := by exact_mod_cast hmzs
    have hq2 : q = (s : ℚ) * (10:ℚ) ^ ((z : Int) - (e : Int)) := by
      have hq1 : q = (m : ℚ) / 10 ^ e := by
        rw [eq_div_iff hpe]
        exact hm.symm
      rw [hq1, hmQ, zpow_sub₀ h10, zpow_natCast, zpow_natCast]
      ring
    rw [pow10_eq_zpow, hq2]
    have hcast : (((natDigits s).length : Int) + (z : Int) - (e : Int) - 1) =
        ((z : Int) - (e : Int)) + (((natDigits s).length - 1 : Nat) : Int) := by omega
    rw [hcast, zpow_add₀ h10, zpow_natCast]
    have hp1 : ((10:ℚ) ^ ((natDigits s).length - 1)) ≠ 0 := by positivity
    field_simp
    ring
  · rw [if_neg hexp] at hcs
    by_cases he0 : e = 0
    · subst he0
      rw [if_pos rfl] at hcs
      subst hcs
      have hq_eq : ((m : Nat) : ℚ) = q := by
        rw [hm, pow_zero, mul_one]
      refine ⟨?_, head_digit_of_natChars m, natChars_no_underscore m⟩
      rw [parseUnsignedDec_natChars, hq_eq]
    · rw [if_neg he0] at hcs
      subst hcs
      have he1 : 1 ≤ e := by omega
      have hFlt : m % 10 ^ e < 10 ^ e := Nat.mod_lt _ (Nat.pos_pow_of_pos e (by omega))
      obtain ⟨hparse, -, hund⟩ := render_frac_spec (m / 10 ^ e) (m % 10 ^ e) e hFlt he1
      refine ⟨?_, ?_, hund⟩
      · rw [hparse]
        congr 1
        have hsplit : (10:Nat) ^ e * (m / 10 ^ e) + m % 10 ^ e = m := Nat.div_add_mod m _
        have hpe : ((10:ℚ) ^ e) ≠ 0 := by positivity
        have hcast : ((m / 10 ^ e : Nat) : ℚ) * 10 ^ e + ((m % 10 ^ e : Nat) : ℚ) =
            q * 10 ^ e := by
          have hc := congrArg (fun n : Nat => (n : ℚ)) hsplit
          simp only at hc
          rw [← hm]
          push_cast at hc ⊢
          linarith [hc]
        field_simp
        linarith [hcast]
      · obtain ⟨c, r, hcr, hdig⟩ := head_digit_of_natChars (m / 10 ^ e)
        refine ⟨c, r ++ '.' :: (padZeros (e - (natDigits (m % 10 ^ e)).length) ++
          natChars (m % 10 ^ e)), ?_, hdig⟩
        rw [hcr]
        rfl

/-- Outside the exponential regime the rendered numeral also has the plain
shape `\d+(\.\d+)?`: this holds whenever the encoded value is at least
`10⁻⁶` and below `10²¹` (with `(m : ℚ) = q * 10 ^ e` relating the scaled
integer to the value). -/
theorem render_body_shape (q : ℚ) (m e : Nat) (hm : (m : ℚ) = q * 10 ^ e)
    (hqpos : 0 < q) (hlow : 1 / 10 ^ 6 ≤ q) (hhigh : q < 10 ^ 21) (cs : List Char)
    (hcs : cs =
      (if ¬ m = 0 ∧
          (((natDigits (stripFactor 10 m).2).length : Int) +
              ((stripFactor 10 m).1 : Int) - (e : Int) ≤ -6 ∨
            22 ≤ ((natDigits (stripFactor 10 m).2).length : Int) +
              ((stripFactor 10 m).1 : Int) - (e : Int))
       then
        expoChars (stripFactor 10 m).2
          (((natDigits (stripFactor 10 m).2).length : Int) +
            ((stripFactor 10 m).1 : Int) - (e : Int) - 1)
       else if e = 0 then natChars m
       else
        natChars (m / 10 ^ e) ++ '.' ::
          (padZeros (e - (natDigits (m % 10 ^ e)).length) ++ natChars (m % 10 ^ e)))) :
    isScoreChars cs = true := by
  obtain ⟨z, s, hsz⟩ : ∃ z s, stripFactor 10 m = (z, s) := ⟨_, _, rfl⟩
  simp only [hsz] at hcs
  have hmpos : 0 < m := by
    rcases Nat.eq_zero_or_pos m with h0 | h
    · exfalso
      rw [h0] at hm
      have hpos : (0:ℚ) < q * 10 ^ e := by positivity
      rw [← hm] at hpos
      norm_num at hpos
    · exact h
  obtain ⟨hmzs, -⟩ := stripFactor_spec 10 m (by norm_num) hmpos
  rw [hsz] at hmzs
  have hspos : 0 < s := by
    rcases Nat.eq_zero_or_pos s with h0 | h
    · exfalso
      rw [h0, Nat.mul_zero] at hmzs
      exact absurd hmzs (Nat.pos_iff_ne_zero.1 hmpos)
    · exact h
  have hk1 : 1 ≤ (natDigits s).length := List.length_pos.2 (natDigits_ne_nil s)
  have hslb : 10 ^ ((natDigits s).length - 1) ≤ s := natDigits_ge s hspos
  have hsub : s < 10 ^ (natDigits s).length := natDigits_lt s
  have hml : 10 ^ (z + (natDigits s).length - 1) ≤ m := by
    rw [hmzs]
    calc 10 ^ (z + (natDigits s).length - 1)
        = 10 ^ z * 10 ^ ((natDigits s).length - 1) := by
          rw [← pow_add]
          congr 1
          omega
    _ ≤ 10 ^ z * s := Nat.mul_le_mul_left _ hslb
  have hmu : m < 10 ^ (z + (natDigits s).length) := by
    rw [hmzs, pow_add]
    exact mul_lt_mul_of_pos_left hsub (Nat.pos_pow_of_pos z (by omega))
  have hpe : (0:ℚ) < 10 ^ e := by positivity
  have h1Q : (m : ℚ) < 10 ^ (e + 21) := by
    rw [hm, pow_add]
    calc q * 10 ^ e < 10 ^ 21 * 10 ^ e := mul_lt_mul_of_pos_right hhigh hpe
    _ = 10 ^ e * 10 ^ 21 := by ring
  have h2Q : (10:ℚ) ^ e ≤ (m : ℚ) * 10 ^ 6 := by
    rw [hm]
    calc (10:ℚ) ^ e = (1 / 10 ^ 6) * 10 ^ e * 10 ^ 6 := by ring
    _ ≤ q * 10 ^ e * 10 ^ 6 := by
        apply mul_le_mul_of_nonneg_right _ (by positivity)
        exact mul_le_mul_of_nonneg_right hlow (le_of_lt hpe)
  have h1N : (10:Nat) ^ (z + (natDigits s).length - 1) < 10 ^ (e + 21) := by
    have hQ : ((10 ^ (z + (natDigits s).length - 1) : Nat) : ℚ) <
        ((10 ^ (e + 21) : Nat) : ℚ) := by
      push_cast
      calc ((10:ℚ) ^ (z + (natDigits s).length - 1)) ≤ (m : ℚ) := by
            exact_mod_cast Nat.cast_le.2 hml
      _ < 10 ^ (e + 21) := h1Q
    exact_mod_cast hQ
  have h2N : (10:Nat) ^ e < 10 ^ (z + (natDigits s).length + 6) := by
    have hmuQ : (m : ℚ) * 10 ^ 6 < 10 ^ (z + (natDigits s).length + 6) := by
      calc (m : ℚ) * 10 ^ 6 < ((10:ℚ) ^ (z + (natDigits s).length)) * 10 ^ 6 := by
            apply mul_lt_mul_of_pos_right _ (by positivity)
            exact_mod_cast hmu
      _ = 10 ^ (z + (natDigits s).length + 6) := by ring
    have hQ : ((10 ^ e : Nat) : ℚ) < ((10 ^ (z + (natDigits s).length + 6) : Nat) : ℚ) := by
      push_cast
      exact lt_of_le_of_lt h2Q hmuQ
    exact_mod_cast hQ
  have hexp1 : z + (natDigits s).length - 1 < e + 21 :=
    (Nat.pow_lt_pow_iff_right (by norm_num)).1 h1N
  have hexp2 : e < z + (natDigits s).length + 6 :=
    (Nat.pow_lt_pow_iff_right (by norm_num)).1 h2N
  have hnexp : ¬ (¬ m = 0 ∧ (((natDigits s).length : Int) + (z : Int) - (e : Int) ≤ -6 ∨
      22 ≤ ((natDigits s).length : Int) + (z : Int) - (e : Int))) := by
    rintro ⟨-, hn⟩
    rcases hn with hn | hn <;> omega
  rw [if_neg hnexp] at hcs
  by_cases he0 : e = 0
  · subst he0
    rw [if_pos rfl] at hcs
    subst hcs
    obtain ⟨ht, hd⟩ := takeWhile_all isDigitChar (natChars m) (natChars_all_digit m)
    simp only [isScoreChars, ht, hd, isScoreTail,
      isEmpty_false_of_ne_nil (natChars_ne_nil m), Bool.not_false, Bool.and_self]
  · rw [if_neg he0] at hcs
    subst hcs
    have he1 : 1 ≤ e := by omega
    have hFlt : m % 10 ^ e < 10 ^ e := Nat.mod_lt _ (Nat.pos_pow_of_pos e (by omega))
    exact (render_frac_spec (m / 10 ^ e) (m % 10 ^ e) e hFlt he1).2.1

/-- Core correctness of the codec's rendering: a non-negative
decimal-representable score renders as a numeral — plain or exponential —
that reparses to exactly the same rational, starts with a digit, and
contains no underscore. -/
theorem renderScore_spec (q : ℚ) (hq : 0 ≤ q) (hdec : IsDecimal q) :
    parseUnsignedDec (renderScore q) = some q ∧
    (∃ c r, renderScore q = c :: r ∧ isDigitChar c = true) ∧
    (∀ c ∈ renderScore q, c ≠ '_') := by
  obtain ⟨k, hk⟩ := hdec
  obtain ⟨e, he⟩ := decExp_isSome q.den q.pos k hk
  exact render_body_spec q _ e (num_shift_eq q hq e (decExp_dvd q.den q.pos e he))
    (renderScore q) (renderScore_cases q hq e he)

/-- Shape of the rendered numeral in ECMAScript's plain-decimal regime: a
score that is zero, or at least `10⁻⁶` and below `10²¹`, renders as
`\d+(\.\d+)?` — no exponential notation, no sign, no underscore. -/
theorem renderScore_plain_shape (q : ℚ) (hq : 0 ≤ q) (hdec : IsDecimal q)
    (hlow : q = 0 ∨ 1 / 10 ^ 6 ≤ q) (hhigh : q < 10 ^ 21) :
    isScoreChars (renderScore q) = true := by
  rcases hlow with rfl | hlow
  · decide
  · obtain ⟨k, hk⟩ := hdec
    obtain ⟨e, he⟩ := decExp_isSome q.den q.pos k hk
    exact render_body_shape q _ e (num_shift_eq q hq e (decExp_dvd q.den q.pos e he))
      (lt_of_lt_of_le (by norm_num) hlow) hlow hhigh
      (renderScore q) (renderScore_cases q hq e he)

/-! ## Helper lemmas: splitting and the codec round trip -/

theorem splitCharList_cons (sep c : Char) (rest : List Char) :
    splitCharList sep (c :: rest) =
      match splitCharList sep rest with
      | [] => [[]]
      | g :: gs => if c = sep then [] :: g :: gs else (c :: g) :: gs := rfl

theorem splitCharList_ne_nil (sep : Char) (cs : List Char) : splitCharList sep cs ≠ [] := by
  cases cs with
  | nil => simp [splitCharList]
  | cons c rest =>
    rw [splitCharList_cons]
    cases h : splitCharList sep rest with
    | nil => simp
    | cons g gs => by_cases hc : c = sep <;> simp [hc]

theorem splitCharList_no_sep (sep : Char) (cs : List Char) (h : sep ∉ cs) :
    splitCharList sep cs = [cs] := by
  induction cs with
  | nil => rfl
  | cons c rest ih =>
    have hc : ¬ c = sep := fun hcon => h (hcon ▸ List.mem_cons_self c rest)
    have hr : sep ∉ rest := fun hcon => h (List.mem_cons_of_mem c hcon)
    rw [splitCharList_cons, ih hr]
    simp [hc]

theorem splitCharList_append (sep : Char) (a b : List Char) (ha : sep ∉ a) :
    splitCharList sep (a ++ sep :: b) = a :: splitCharList sep b := by
  induction a with
  | nil =>
    rw [List.nil_append, splitCharList_cons]
    cases h : splitCharList sep b with
    | nil => exact absurd h (splitCharList_ne_nil sep b)
    | cons g gs => simp
  | cons c rest ih =>
    have hc : ¬ c = sep := fun hcon => ha (hcon ▸ List.mem_cons_self c rest)
    have hr : sep ∉ rest := fun hcon => ha (List.mem_cons_of_mem c hcon)
    rw [List.cons_append, splitCharList_cons, ih hr]
    simp [hc]

theorem hexChar_ne_underscore (c : Char) (h : isHexChar c = true) : c ≠ '_' := by
  intro hcon
  subst hcon
  exact absurd h (by decide)

theorem isHex24_no_underscore (s : String) (h : isHex24 s = true) : '_' ∉ s.data := by
  intro hmem
  simp only [isHex24, Bool.and_eq_true, List.all_eq_true] at h
  exact hexChar_ne_underscore '_' (h.2 '_' hmem) rfl

theorem createCursor_data (q : ℚ) (pid : String) :
    (createCursor q pid).data = renderScore q ++ '_' :: pid.data := by
  show (renderScore q ++ ['_']) ++ pid.data = renderScore q ++ '_' :: pid.data
  simp [List.append_assoc]

theorem isScoreChars_head (cs : List Char) (h : isScoreChars cs = true) :
    ∃ c rest, cs = c :: rest ∧ isDigitChar c = true := by
  cases cs with
  | nil => exact absurd h (by decide)
  | cons c rest =>
    refine ⟨c, rest, rfl, ?_⟩
    by_contra hcon
    have hfalse : isDigitChar c = false := by
      cases hic : isDigitChar c
      · rfl
      · exact absurd hic hcon
    simp [isScoreChars, List.takeWhile_cons, hfalse] at h

theorem digit_ne_minus (c : Char) (h : isDigitChar c = true) : ¬ c = '-' := by
  intro hcon
  subst hcon
  exact absurd h (by decide)

theorem digit_ne_plus (c : Char) (h : isDigitChar c = true) : ¬ c = '+' := by
  intro hcon
  subst hcon
  exact absurd h (by decide)

theorem jsParseFloat_renderScore (q : ℚ) (hq : 0 ≤ q) (hdec : IsDecimal q) :
    jsParseFloat (String.mk (renderScore q)) = some q := by
  obtain ⟨hparse, ⟨c, rest, hcons, hdig⟩, -⟩ := renderScore_spec q hq hdec
  simp only [jsParseFloat, hcons]
  rw [if_neg (digit_ne_minus c hdig), if_neg (digit_ne_plus c hdig), ← hcons, hparse]

/-! ## Codec claims: C6 and C10 -/

/-- C6.  Codec round trip: for every non-negative decimal-representable
score (every finite non-negative double is such a value) and every
24-character lowercase-hex id, `parseCursor (createCursor score id)` returns
exactly `{ score, postId := id }`. -/
theorem c6_cursor_round_trip (q : ℚ) (pid : String) (hq : 0 ≤ q) (hdec : IsDecimal q)
    (hhex : isHex24 pid = true) :
    parseCursor (createCursor q pid) = { score := some q, postId := some pid } := by
  obtain ⟨-, -, hund⟩ := renderScore_spec q hq hdec
  have hsplit : splitCharList '_' (createCursor q pid).data =
      [renderScore q, pid.data] := by
    rw [createCursor_data]
    rw [splitCharList_append '_' (renderScore q) pid.data (fun hmem => hund '_' hmem rfl)]
    rw [splitCharList_no_sep '_' pid.data (isHex24_no_underscore pid hhex)]
  simp only [parseCursor, splitChar, hsplit, List.map_cons, List.map_nil]
  have heta : String.mk pid.data = pid := rfl
  rw [heta]
  have hgetd : ([String.mk (renderScore q), pid].getD 0 "") = String.mk (renderScore q) := rfl
  have hget1 : ([String.mk (renderScore q), pid].get? 1) = some pid := rfl
  rw [hgetd, hget1, jsParseFloat_renderScore q hq hdec]

/-- Witness for C6 at the documented example cursor `123.45_507f…9011`. -/
theorem c6_cursor_round_trip_witness :
    parseCursor (createCursor (2469/20) "507f1f77bcf86cd799439011") =
      { score := some (2469/20), postId := some "507f1f77bcf86cd799439011" } :=
  c6_cursor_round_trip (2469/20) "507f1f77bcf86cd799439011" (by decide) ⟨2, by decide⟩
    (by decide)

/-- C10.  Cursor parsing is total: every string — including strings failing
the wire-format regex or containing no underscore — produces a
`ParsedCursor` (no exception); for malformed input the score is `NaN`
(modelled `none`) and the post id may be `undefined` (modelled `none`). -/
theorem c10_parse_cursor_total :
    (∀ s : String, ∃ sc pid, parseCursor s = { score := sc, postId := pid }) ∧
    parseCursor "not-a-cursor" = { score := none, postId := none } ∧
    parseCursor "" = { score := none, postId := none } ∧
    parseCursor "12.5" = { score := some (25/2), postId := none } ∧
    parseCursor "a_b_c" = { score := none, postId := some "b" } :=
  ⟨fun s => ⟨_, _, rfl⟩, by decide, by decide, by decide, by decide⟩

/-! ## Pagination engine lemmas -/

theorem jsFindIndex_lt_length (pred : PostWithScore → Bool) (l : List PostWithScore)
    (i : Nat) (h : jsFindIndex pred l = some i) : i < l.length := by
  induction l generalizing i with
  | nil => exact absurd h (by simp [jsFindIndex])
  | cons p ps ih =>
    by_cases hp : pred p
    · simp only [jsFindIndex, if_pos hp] at h
      cases h
      simp
    · simp only [jsFindIndex, if_neg hp, Option.map_eq_some'] at h
      obtain ⟨j, hj, rfl⟩ := h
      have := ih j hj
      simp only [List.length_cons]
      omega

theorem jsFindIndex_none (pred : PostWithScore → Bool) (l : List PostWithScore)
    (h : ∀ x ∈ l, pred x = false) : jsFindIndex pred l = none := by
  induction l with
  | nil => rfl
  | cons p ps ih =>
    simp only [jsFindIndex, h p (List.mem_cons_self p ps), if_false, Bool.false_eq_true,
      ih (fun x hx => h x (List.mem_cons_of_mem p hx)), Option.map_none']

theorem jsFindIndex_eq_some (pred : PostWithScore → Bool) (l : List PostWithScore) (i : Nat)
    (hi : i < l.length) (hp : pred (l.get ⟨i, hi⟩) = true)
    (hbefore : ∀ j (hj : j < l.length), j < i → pred (l.get ⟨j, hj⟩) = false) :
    jsFindIndex pred l = some i := by
  induction l generalizing i with
  | nil => simp at hi
  | cons p ps ih =>
    cases i with
    | zero =>
      simp only [List.get] at hp
      simp [jsFindIndex, hp]
    | succ i =>
      have hp0 : pred p = false := hbefore 0 (by simp) (by omega)
      have hi' : i < ps.length := by simpa using hi
      have hget : pred (ps.get ⟨i, hi'⟩) = true := by
        rw [← hp]
        rfl
      have hbefore' : ∀ j (hj : j < ps.length), j < i → pred (ps.get ⟨j, hj⟩) = false := by
        intro j hj hji
        have := hbefore (j + 1) (by simpa using Nat.succ_lt_succ hj) (by omega)
        rw [← this]
        rfl
      simp only [jsFindIndex, hp0, Bool.false_eq_true, if_false,
        ih i hi' hget hbefore', Option.map_some']

theorem resolveStartIndex_bound (posts : List PostWithScore)
    (cursor : Option (ℚ × String)) (s : Nat)
    (h : resolveStartIndex posts cursor = some s) : s = 0 ∨ s < posts.length := by
  rcases cursor with - | c
  · left
    simpa [resolveStartIndex] using h.symm
  · right
    simp only [resolveStartIndex] at h
    split at h
    · exact absurd h (by simp)
    · split at h
      · exact absurd h (by simp)
      · cases h
        omega

/-! ## Engine claims: C5 and C9 -/

/-- C5.  A cursor matching exactly the last row: for rows
`[A score 100, B score 80]`, limit 1 and cursor `(80, "B")`, the engine
returns an empty page with both cursors `null`. -/
theorem c5_cursor_at_last_row :
    applyCursorPagination
      [{ _id := "A", likeCount := 100, createdAt := 0, relevanceScore := 100 },
       { _id := "B", likeCount := 80, createdAt := 0, relevanceScore := 80 }]
      (some 1) (some (80, "B")) =
      { data := [], nextCursor := none, prevCursor := none } := by
  decide

/-- C9.  Page-size bound: for every row list, limit and cursor, the returned
`data` is a contiguous slice of the input whose length is at most the
effective limit (`query.limit ?? 20`, so 20 when the query carries no
limit), including when the limit exceeds the list length or the cursor
matches no row. -/
theorem c9_page_size_bound (posts : List PostWithScore) (limit? : Option Nat)
    (cursor : Option (ℚ × String)) :
    (∃ s, (applyCursorPagination posts limit? cursor).data =
        (posts.drop s).take (limit?.getD 20)) ∧
    (applyCursorPagination posts limit? cursor).data.length ≤ limit?.getD 20 := by
  rcases hres : resolveStartIndex posts cursor with - | s
  · simp only [applyCursorPagination, hres]
    exact ⟨⟨posts.length, by simp⟩, by simp⟩
  · simp only [applyCursorPagination, hres]
    have hdata : (paginateFrom posts (limit?.getD 20) s).data =
        (posts.drop s).take (limit?.getD 20) := rfl
    rw [hdata]
    exact ⟨⟨s, rfl⟩, List.length_take_le _ _⟩

/-! ## Engine claim C4: the sentinel first-page cursor -/

/-- C4.  First-page sentinel cursor: on a non-empty sorted row list none of
whose ids is the zero id, any paginate call that lands on the second page
(resolved `startIndex` with `0 < startIndex` and `startIndex - limit ≤ 0`)
gets `prevCursor = encode(rows[0].relevanceScore + 0.1, "000…0")`, and
paginating the same rows with that sentinel cursor decoded returns exactly
the same page as paginating with no cursor (page 1, whose `prevCursor` is
`null`). -/
theorem c4_first_page_sentinel (posts : List PostWithScore) (limit? : Option Nat)
    (cursor : Option (ℚ × String)) (s : Nat)
    (hsorted : List.Sorted (fun a b => b.relevanceScore ≤ a.relevanceScore) posts)
    (hne : posts ≠ [])
    (hzero : ∀ p ∈ posts, p._id ≠ zeroObjectId)
    (hres : resolveStartIndex posts cursor = some s)
    (hpos : 0 < s) (hsle : s ≤ limit?.getD 20) :
    (applyCursorPaginationS posts limit? cursor).prevCursor =
      some (createCursor ((posts.getD 0 dummyPost).relevanceScore + 1 / 10) zeroObjectId) ∧
    applyCursorPagination posts limit?
        (some ((posts.getD 0 dummyPost).relevanceScore + 1 / 10, zeroObjectId)) =
      applyCursorPagination posts limit? none := by
  have hprev : (applyCursorPagination posts limit? cursor).prevCursor =
      some ((posts.getD 0 dummyPost).relevanceScore + 1 / 10, zeroObjectId) := by
    simp only [applyCursorPagination, hres, paginateFrom]
    rw [if_pos hpos, if_neg (show ¬ 0 < s - limit?.getD 20 by omega)]
  constructor
  · simp only [applyCursorPaginationS, hprev, Option.map_some', encodeCursorPair]
  · obtain ⟨p0, rest, rfl⟩ := List.exists_cons_of_ne_nil hne
    have hmatch : jsFindIndex
        (cursorMatches (((p0 :: rest).getD 0 dummyPost).relevanceScore + 1 / 10) zeroObjectId)
        (p0 :: rest) = none := by
      apply jsFindIndex_none
      intro x hx
      simp only [cursorMatches]
      rw [beq_eq_false_iff_ne.2 (hzero x hx)]
      simp
    have hsucc : jsFindIndex
        (cursorSuccessor (((p0 :: rest).getD 0 dummyPost).relevanceScore + 1 / 10) zeroObjectId)
        (p0 :: rest) = some 0 := by
      have hp0 : cursorSuccessor (((p0 :: rest).getD 0 dummyPost).relevanceScore + 1 / 10)
          zeroObjectId p0 = true := by
        simp only [cursorSuccessor, show ((p0 :: rest).getD 0 dummyPost) = p0 from rfl]
        rw [decide_eq_true (show p0.relevanceScore < p0.relevanceScore + 1 / 10 by linarith),
          Bool.true_or]
      simp only [jsFindIndex, hp0, if_true]
    have hres2 : resolveStartIndex (p0 :: rest)
        (some (((p0 :: rest).getD 0 dummyPost).relevanceScore + 1 / 10, zeroObjectId)) =
        some 0 := by
      simp only [resolveStartIndex, hmatch, hsucc]
      rw [if_neg (by simp)]
    rw [show applyCursorPagination (p0 :: rest) limit? none =
      paginateFrom (p0 :: rest) (limit?.getD 20) 0 from rfl]
    simp only [applyCursorPagination, hres2]

/-- Witness for C4 at rows `[score 2, score 1]` with hex ids, limit 1 and a
cursor matching the first row exactly. -/
theorem c4_first_page_sentinel_witness :
    (applyCursorPaginationS
        [{ _id := "aaaaaaaaaaaaaaaaaaaaaaaa", likeCount := 2, createdAt := 0, relevanceScore := 2 },
         { _id := "bbbbbbbbbbbbbbbbbbbbbbbb", likeCount := 1, createdAt := 0, relevanceScore := 1 }]
        (some 1) (some (2, "aaaaaaaaaaaaaaaaaaaaaaaa"))).prevCursor =
      some (createCursor
        (([{ _id := "aaaaaaaaaaaaaaaaaaaaaaaa", likeCount := 2, createdAt := 0, relevanceScore := 2 },
           { _id := "bbbbbbbbbbbbbbbbbbbbbbbb", likeCount := 1, createdAt := 0, relevanceScore := 1 }].getD 0 dummyPost).relevanceScore + 1 / 10)
        zeroObjectId) ∧
    applyCursorPagination
        [{ _id := "aaaaaaaaaaaaaaaaaaaaaaaa", likeCount := 2, createdAt := 0, relevanceScore := 2 },
         { _id := "bbbbbbbbbbbbbbbbbbbbbbbb", likeCount := 1, createdAt := 0, relevanceScore := 1 }]
        (some 1)
        (some (([{ _id := "aaaaaaaaaaaaaaaaaaaaaaaa", likeCount := 2, createdAt := 0, relevanceScore := 2 },
                 { _id := "bbbbbbbbbbbbbbbbbbbbbbbb", likeCount := 1, createdAt := 0, relevanceScore := 1 }].getD 0 dummyPost).relevanceScore + 1 / 10, zeroObjectId)) =
      applyCursorPagination
        [{ _id := "aaaaaaaaaaaaaaaaaaaaaaaa", likeCount := 2, createdAt := 0, relevanceScore := 2 },
         { _id := "bbbbbbbbbbbbbbbbbbbbbbbb", likeCount := 1, createdAt := 0, relevanceScore := 1 }]
        (some 1) none :=
  c4_first_page_sentinel _ (some 1) (some (2, "aaaaaaaaaaaaaaaaaaaaaaaa")) 1
    (by decide) (by decide) (by decide) (by decide) (by decide) (by decide)

/-! ## Engine claim C7: emitted cursors are well-formed -/

theorem IsDecimal_add_tenth (q : ℚ) (h : IsDecimal q) : IsDecimal (q + 1 / 10) := by
  obtain ⟨k, hk⟩ := h
  refine ⟨k + 1, ?_⟩
  have hden_ne : ((q.den : ℚ)) ≠ 0 := by exact_mod_cast q.den_nz
  have hc : (((10 ^ k / q.den : Nat)) : ℚ) = 10 ^ k / (q.den : ℚ) := by
    rw [Nat.cast_div hk hden_ne]
    push_cast
    ring
  have hval : q + 1 / 10 =
      Rat.divInt (q.num * ((10 ^ k / q.den : Nat) : ℤ) * 10 + 10 ^ k) (10 ^ (k + 1)) := by
    rw [Rat.divInt_eq_div]
    have hcast : ((q.num * ((10 ^ k / q.den : Nat) : ℤ) * 10 + 10 ^ k : ℤ) : ℚ) =
        (q.num : ℚ) * ((10 ^ k / q.den : Nat) : ℚ) * 10 + 10 ^ k := by
      simp only [Int.cast_add, Int.cast_mul, Int.cast_natCast, Int.cast_pow, Int.cast_ofNat]
    have hcast2 : ((10 ^ (k + 1) : ℤ) : ℚ) = 10 ^ (k + 1) := by
      push_cast
      ring
    have hkey : (q.num : ℚ) * ((10:ℚ) ^ k / (q.den : ℚ)) = q * 10 ^ k := by
      calc (q.num : ℚ) * ((10:ℚ) ^ k / (q.den : ℚ))
          = ((q.num : ℚ) / (q.den : ℚ)) * 10 ^ k := by ring
      _ = q * 10 ^ k := by rw [Rat.num_div_den]
    rw [hcast, hcast2, hc, hkey]
    field_simp
    ring
  rw [hval]
  have hdvd := Rat.den_dvd (q.num * ((10 ^ k / q.den : Nat) : ℤ) * 10 + 10 ^ k) (10 ^ (k + 1))
  have h10 : ((10 : ℤ) ^ (k + 1)) = ((10 ^ (k + 1) : Nat) : ℤ) := by push_cast; ring
  rw [h10] at hdvd
  exact_mod_cast hdvd

theorem paginateFrom_cursor_source (posts : List PostWithScore) (limit s : Nat)
    (hs : s < posts.length) (pr : ℚ × String)
    (hemit : (paginateFrom posts limit s).nextCursor = some pr ∨
      (paginateFrom posts limit s).prevCursor = some pr) :
    (∃ p ∈ posts, pr = (p.relevanceScore, p._id)) ∨
    (posts ≠ [] ∧ pr = ((posts.getD 0 dummyPost).relevanceScore + 1 / 10, zeroObjectId)) := by
  rcases hemit with hnext | hprev
  · by_cases hcond : s + limit < posts.length ∧ 0 < ((posts.drop s).take limit).length
    · left
      have heq : (paginateFrom posts limit s).nextCursor =
          some ((((posts.drop s).take limit).getD
                  (((posts.drop s).take limit).length - 1) dummyPost).relevanceScore,
                (((posts.drop s).take limit).getD
                  (((posts.drop s).take limit).length - 1) dummyPost)._id) := by
        simp only [paginateFrom]
        rw [if_pos hcond]
      rw [heq] at hnext
      have hlast : ((posts.drop s).take limit).length - 1 <
          ((posts.drop s).take limit).length := by omega
      have hmem : ((posts.drop s).take limit).getD
          (((posts.drop s).take limit).length - 1) dummyPost ∈ posts := by
        rw [List.getD_eq_getElem?_getD, List.getElem?_eq_getElem hlast, Option.getD_some]
        exact List.drop_subset _ _ (List.take_subset _ _ (List.getElem_mem hlast))
      refine ⟨_, hmem, ?_⟩
      exact (Option.some.inj hnext).symm
    · have hnone : (paginateFrom posts limit s).nextCursor = none := by
        simp only [paginateFrom]
        rw [if_neg hcond]
      rw [hnone] at hnext
      exact absurd hnext (by simp)
  · by_cases hpos : 0 < s
    · by_cases hps : 0 < s - limit
      · left
        have hidx : s - limit - 1 < posts.length := by omega
        have heq : (paginateFrom posts limit s).prevCursor =
            some ((posts.getD (s - limit - 1) dummyPost).relevanceScore,
                  (posts.getD (s - limit - 1) dummyPost)._id) := by
          simp only [paginateFrom]
          rw [if_pos hpos, if_pos hps]
        rw [heq] at hprev
        have hmem : posts.getD (s - limit - 1) dummyPost ∈ posts := by
          rw [List.getD_eq_getElem?_getD, List.getElem?_eq_getElem hidx, Option.getD_some]
          exact List.getElem_mem hidx
        refine ⟨_, hmem, ?_⟩
        exact (Option.some.inj hprev).symm
      · right
        have heq : (paginateFrom posts limit s).prevCursor =
            some ((posts.getD 0 dummyPost).relevanceScore + 1 / 10, zeroObjectId) := by
          simp only [paginateFrom]
          rw [if_pos hpos, if_neg hps]
        rw [heq] at hprev
        refine ⟨?_, (Option.some.inj hprev).symm⟩
        intro hcon
        subst hcon
        simp at hs
    · have hnone : (paginateFrom posts limit s).prevCursor = none := by
        simp only [paginateFrom]
        rw [if_neg hpos]
      rw [hnone] at hprev
      exact absurd hprev (by simp)

theorem page_cursor_source (posts : List PostWithScore) (limit? : Option Nat)
    (cursor : Option (ℚ × String)) (pr : ℚ × String)
    (hemit : (applyCursorPagination posts limit? cursor).nextCursor = some pr ∨
      (applyCursorPagination posts limit? cursor).prevCursor = some pr) :
    (∃ p ∈ posts, pr = (p.relevanceScore, p._id)) ∨
    (posts ≠ [] ∧ pr = ((posts.getD 0 dummyPost).relevanceScore + 1 / 10, zeroObjectId)) := by
  rcases hres : resolveStartIndex posts cursor with - | s
  · simp only [applyCursorPagination, hres] at hemit
    rcases hemit with h | h <;> exact absurd h (by simp)
  · simp only [applyCursorPagination, hres] at hemit
    rcases resolveStartIndex_bound posts cursor s hres with rfl | hlt
    · rcases Nat.eq_zero_or_pos posts.length with hlen | hlen
      · have hnil : posts = [] := List.length_eq_zero.1 hlen
        subst hnil
        rcases hemit with h | h <;> exact absurd h (by simp [paginateFrom])
      · exact paginateFrom_cursor_source posts _ 0 hlen pr hemit
    · exact paginateFrom_cursor_source posts _ s hlt pr hemit

theorem isWireFormat_createCursor (q : ℚ) (pid : String) (hq : 0 ≤ q) (hdec : IsDecimal q)
    (hlow : q = 0 ∨ 1 / 10 ^ 6 ≤ q) (hhigh : q < 10 ^ 21)
    (hhex : isHex24 pid = true) : isWireFormat (createCursor q pid) = true := by
  obtain ⟨-, -, hund⟩ := renderScore_spec q hq hdec
  have hshape : isScoreChars (renderScore q) = true :=
    renderScore_plain_shape q hq hdec hlow hhigh
  have hsplit : splitCharList '_' (createCursor q pid).data = [renderScore q, pid.data] := by
    rw [createCursor_data,
      splitCharList_append '_' (renderScore q) pid.data (fun hmem => hund '_' hmem rfl),
      splitCharList_no_sep '_' pid.data (isHex24_no_underscore pid hhex)]
  simp only [isWireFormat, hsplit]
  simp only [isHex24, Bool.and_eq_true] at hhex
  rw [hshape, hhex.1, hhex.2]
  rfl

/-- C7 (amended).  Emitted cursors are well-formed on ECMAScript's
plain-decimal rendering regime: for every row set whose ids are
24-character lowercase hex, whose relevance scores are non-negative
decimal-representable values, and whose scores each are zero or at least
`10⁻⁶` while staying below `10²¹` even after the sentinel bump `+ 0.1`,
every cursor string the engine returns — `nextCursor` or `prevCursor`,
sentinel included — matches the wire format `^\d+(\.\d+)?_[a-f0-9]{24}$`.
The frozen claim drops the regime bound and is refuted by the
counterexample below: a score under `10⁻⁶` is rendered in exponential
notation, which the regex rejects. -/
theorem c7_emitted_cursors_wire_format (posts : List PostWithScore) (limit? : Option Nat)
    (cursor : Option (ℚ × String)) (c : String)
    (hids : ∀ p ∈ posts, isHex24 p._id = true)
    (hscores : ∀ p ∈ posts, 0 ≤ p.relevanceScore ∧ IsDecimal p.relevanceScore)
    (hregime : ∀ p ∈ posts,
      (p.relevanceScore = 0 ∨ 1 / 10 ^ 6 ≤ p.relevanceScore) ∧
      p.relevanceScore + 1 / 10 < 10 ^ 21)
    (hemit : (applyCursorPaginationS posts limit? cursor).nextCursor = some c ∨
      (applyCursorPaginationS posts limit? cursor).prevCursor = some c) :
    isWireFormat c = true := by
  have hemit' : ∃ pr, ((applyCursorPagination posts limit? cursor).nextCursor = some pr ∨
      (applyCursorPagination posts limit? cursor).prevCursor = some pr) ∧
      c = encodeCursorPair pr := by
    rcases hemit with h | h
    · simp only [applyCursorPaginationS, Option.map_eq_some'] at h
      obtain ⟨pr, hpr, hc⟩ := h
      exact ⟨pr, Or.inl hpr, hc.symm⟩
    · simp only [applyCursorPaginationS, Option.map_eq_some'] at h
      obtain ⟨pr, hpr, hc⟩ := h
      exact ⟨pr, Or.inr hpr, hc.symm⟩
  obtain ⟨pr, hpr, rfl⟩ := hemit'
  rcases page_cursor_source posts limit? cursor pr hpr with ⟨p, hp, rfl⟩ | ⟨hne, rfl⟩
  · show isWireFormat (createCursor p.relevanceScore p._id) = true
    exact isWireFormat_createCursor _ _ (hscores p hp).1 (hscores p hp).2
      (hregime p hp).1 (by linarith [(hregime p hp).2]) (hids p hp)
  · have h0 : 0 < posts.length := by
      cases posts with
      | nil => exact absurd rfl hne
      | cons a l => simp
    have hhead : posts.getD 0 dummyPost ∈ posts := by
      rw [List.getD_eq_getElem?_getD, List.getElem?_eq_getElem h0, Option.getD_some]
      exact List.getElem_mem h0
    obtain ⟨hq0, hdec0⟩ := hscores _ hhead
    obtain ⟨-, hreg2⟩ := hregime _ hhead
    show isWireFormat
      (createCursor ((posts.getD 0 dummyPost).relevanceScore + 1 / 10) zeroObjectId) = true
    exact isWireFormat_createCursor _ _ (by linarith) (IsDecimal_add_tenth _ hdec0)
      (Or.inr (by linarith)) hreg2 (by decide)

/-- Witness for C7: the `nextCursor` emitted for a concrete two-row set with
hex ids and in-regime scores matches the wire format. -/
theorem c7_emitted_cursors_wire_format_witness :
    isWireFormat "2_aaaaaaaaaaaaaaaaaaaaaaaa" = true :=
  c7_emitted_cursors_wire_format
    [{ _id := "aaaaaaaaaaaaaaaaaaaaaaaa", likeCount := 2, createdAt := 0, relevanceScore := 2 },
     { _id := "bbbbbbbbbbbbbbbbbbbbbbbb", likeCount := 1, createdAt := 0, relevanceScore := 1 }]
    (some 1) none "2_aaaaaaaaaaaaaaaaaaaaaaaa"
    (by intro p hp; fin_cases hp <;> decide)
    (by
      intro p hp
      fin_cases hp
      · exact ⟨by decide, ⟨0, by decide⟩⟩
      · exact ⟨by decide, ⟨0, by decide⟩⟩)
    (by
      intro p hp
      fin_cases hp
      · exact ⟨Or.inr (by decide), by decide⟩
      · exact ⟨Or.inr (by decide), by decide⟩)
    (Or.inl (by decide))

/-- Counterexample to the frozen C7: rows with 24-char lowercase-hex ids and
non-negative decimal-representable scores — exactly the frozen claim's
scope — on which the engine's `nextCursor` is `"1e-7_aaaaaaaaaaaaaaaaaaaaaaaa"`:
the score `10⁻⁷` is rendered in ECMAScript exponential notation, and the
emitted cursor fails the wire format `^\d+(\.\d+)?_[a-f0-9]{24}$`. -/
theorem c7_emitted_cursors_wire_format_counterexample :
    (∀ p ∈ [({ _id := "aaaaaaaaaaaaaaaaaaaaaaaa", likeCount := 10, createdAt := 0,
                relevanceScore := 1 / 10 ^ 7 } : PostWithScore),
            { _id := "bbbbbbbbbbbbbbbbbbbbbbbb", likeCount := 0, createdAt := 0,
                relevanceScore := 0 }], isHex24 p._id = true) ∧
    (∀ p ∈ [({ _id := "aaaaaaaaaaaaaaaaaaaaaaaa", likeCount := 10, createdAt := 0,
                relevanceScore := 1 / 10 ^ 7 } : PostWithScore),
            { _id := "bbbbbbbbbbbbbbbbbbbbbbbb", likeCount := 0, createdAt := 0,
                relevanceScore := 0 }],
      0 ≤ p.relevanceScore ∧ IsDecimal p.relevanceScore) ∧
    (applyCursorPaginationS
        [({ _id := "aaaaaaaaaaaaaaaaaaaaaaaa", likeCount := 10, createdAt := 0,
              relevanceScore := 1 / 10 ^ 7 } : PostWithScore),
         { _id := "bbbbbbbbbbbbbbbbbbbbbbbb", likeCount := 0, createdAt := 0,
              relevanceScore := 0 }]
        (some 1) none).nextCursor = some "1e-7_aaaaaaaaaaaaaaaaaaaaaaaa" ∧
    isWireFormat "1e-7_aaaaaaaaaaaaaaaaaaaaaaaa" = false := by
  refine ⟨?_, ?_, ?_, ?_⟩
  · intro p hp
    fin_cases hp <;> decide
  · intro p hp
    fin_cases hp
    · exact ⟨by decide, ⟨7, by decide⟩⟩
    · exact ⟨by decide, ⟨0, by decide⟩⟩
  · decide
  · decide

/-! ## Engine claim C1: pagination completeness -/

/-- The cursor a client holds after having received the rows before index
`s`: no cursor when `s = 0`, otherwise the `(score, id)` pair of row
`s - 1` — exactly what `nextCursor` carried. -/
def cursorFor (posts : List PostWithScore) (s : Nat) : Option (ℚ × String) :=
  if s = 0 then none
  else (posts[s - 1]?).map (fun p => (p.relevanceScore, p._id))

theorem nodup_ids_ne (posts : List PostWithScore)
    (hids : (posts.map (fun p => p._id)).Nodup)
    (i j : Nat) (hi : i < posts.length) (hj : j < posts.length) (hij : i ≠ j) :
    (posts.get ⟨i, hi⟩)._id ≠ (posts.get ⟨j, hj⟩)._id := by
  intro heq
  have hmi : i < (posts.map (fun p => p._id)).length := by simpa using hi
  have hmj : j < (posts.map (fun p => p._id)).length := by simpa using hj
  have h1 : (posts.map (fun p => p._id)).get ⟨i, hmi⟩ =
      (posts.map (fun p => p._id)).get ⟨j, hmj⟩ := by
    rw [List.get_map, List.get_map]
    exact heq
  have h2 := (hids.get_inj_iff.1 h1)
  have h3 : i = j := congrArg Fin.val h2
  exact hij h3

theorem resolve_cursorFor (posts : List PostWithScore)
    (hids : (posts.map (fun p => p._id)).Nodup) (s : Nat) (hs : s < posts.length) :
    resolveStartIndex posts (cursorFor posts s) = some s := by
  rcases Nat.eq_zero_or_pos s with rfl | hpos
  · rfl
  · have hs1 : s - 1 < posts.length := by omega
    have hcf : cursorFor posts s =
        some ((posts.get ⟨s - 1, hs1⟩).relevanceScore, (posts.get ⟨s - 1, hs1⟩)._id) := by
      simp only [cursorFor, if_neg (by omega : ¬ s = 0),
        List.getElem?_eq_getElem hs1, Option.map_some']
      rfl
    rw [hcf]
    have hfind : jsFindIndex
        (cursorMatches (posts.get ⟨s - 1, hs1⟩).relevanceScore (posts.get ⟨s - 1, hs1⟩)._id)
        posts = some (s - 1) := by
      apply jsFindIndex_eq_some _ _ _ hs1
      · simp only [cursorMatches]
        have h1 : jsAbs ((posts.get ⟨s - 1, hs1⟩).relevanceScore -
            (posts.get ⟨s - 1, hs1⟩).relevanceScore) < SCORE_TOLERANCE := by
          rw [sub_self]
          norm_num [jsAbs, SCORE_TOLERANCE]
        rw [decide_eq_true h1, beq_self_eq_true]
        rfl
      · intro j hj hji
        simp only [cursorMatches]
        rw [beq_eq_false_iff_ne.2 (nodup_ids_ne posts hids j (s - 1) hj hs1 (by omega))]
        simp
    simp only [resolveStartIndex, hfind]
    rw [if_neg (by omega)]
    congr 1
    omega

theorem paginateFrom_next (posts : List PostWithScore) (limit s : Nat)
    (hs : s < posts.length) (hl : 1 ≤ limit) :
    (paginateFrom posts limit s).data = (posts.drop s).take limit ∧
    (paginateFrom posts limit s).nextCursor =
      (if s + limit < posts.length then cursorFor posts (s + limit) else none) := by
  refine ⟨rfl, ?_⟩
  have hdlen : ((posts.drop s).take limit).length = min limit (posts.length - s) := by
    simp [List.length_take, List.length_drop]
  by_cases hend : s + limit < posts.length
  · have hlen : ((posts.drop s).take limit).length = limit := by
      rw [hdlen]
      omega
    have hpos : 0 < ((posts.drop s).take limit).length := by omega
    have hcond : s + limit < posts.length ∧ 0 < ((posts.drop s).take limit).length :=
      ⟨hend, hpos⟩
    have hidx : limit - 1 < ((posts.drop s).take limit).length := by omega
    have hidx2 : s + limit - 1 < posts.length := by omega
    have hlast : ((posts.drop s).take limit).getD
        (((posts.drop s).take limit).length - 1) dummyPost =
        posts.get ⟨s + limit - 1, hidx2⟩ := by
      rw [List.getD_eq_getElem?_getD, List.getElem?_eq_getElem (by omega : (((posts.drop s).take limit).length - 1) < ((posts.drop s).take limit).length), Option.getD_some]
      rw [List.getElem_take, List.getElem_drop]
      congr 1
      omega
    have heq : (paginateFrom posts limit s).nextCursor =
        some ((posts.get ⟨s + limit - 1, hidx2⟩).relevanceScore,
              (posts.get ⟨s + limit - 1, hidx2⟩)._id) := by
      simp only [paginateFrom]
      rw [if_pos hcond, hlast]
    rw [heq, if_pos hend]
    simp only [cursorFor, if_neg (by omega : ¬ s + limit = 0),
      List.getElem?_eq_getElem hidx2, Option.map_some']
    rfl
  · have hnone : (paginateFrom posts limit s).nextCursor = none := by
      simp only [paginateFrom]
      rw [if_neg]
      intro hcon
      exact hend hcon.1
    rw [hnone, if_neg hend]

theorem collectPages_drop (posts : List PostWithScore) (limit : Nat) (hl : 1 ≤ limit)
    (hids : (posts.map (fun p => p._id)).Nodup) :
    ∀ fuel s, s < posts.length → posts.length - s ≤ fuel →
      (collectPages posts (some limit) (cursorFor posts s) fuel).flatten = posts.drop s := by
  intro fuel
  induction fuel with
  | zero =>
    intro s hs hfuel
    omega
  | succ fuel ih =>
    intro s hs hfuel
    have hres := resolve_cursorFor posts hids s hs
    have happ : applyCursorPagination posts (some limit) (cursorFor posts s) =
        paginateFrom posts limit s := by
      simp only [applyCursorPagination, hres, Option.getD_some]
    obtain ⟨hdata, hnext⟩ := paginateFrom_next posts limit s hs hl
    by_cases hend : s + limit < posts.length
    · have h1 : s + limit - 1 < posts.length := by omega
      have hpr : cursorFor posts (s + limit) =
          some ((posts.get ⟨s + limit - 1, h1⟩).relevanceScore,
                (posts.get ⟨s + limit - 1, h1⟩)._id) := by
        simp only [cursorFor, if_neg (by omega : ¬ s + limit = 0),
          List.getElem?_eq_getElem h1, Option.map_some']
        rfl
      have hnext2 : (paginateFrom posts limit s).nextCursor =
          some ((posts.get ⟨s + limit - 1, h1⟩).relevanceScore,
                (posts.get ⟨s + limit - 1, h1⟩)._id) := by
        rw [hnext, if_pos hend, hpr]
      simp only [collectPages, happ, hnext2, List.flatten_cons, hdata]
      rw [← hpr, ih (s + limit) hend (by omega)]
      rw [show posts.drop (s + limit) = (posts.drop s).drop limit by rw [List.drop_drop]]
      exact List.take_append_drop limit (posts.drop s)
    · have hnext2 : (paginateFrom posts limit s).nextCursor = none := by
        rw [hnext, if_neg hend]
      simp only [collectPages, happ, hnext2, List.flatten_cons, List.flatten_nil, List.append_nil,
        hdata]
      exact List.take_of_length_le (by simp only [List.length_drop]; omega)

/-- C1.  Pagination completeness: for every fixed (score-descending, as
`getFeed` sorts before paginating) row list with pairwise-distinct ids and
every limit ≥ 1, starting with no cursor and repeatedly following each
returned `nextCursor` — rows and scores unchanged between calls — yields
every row exactly once: the concatenation of all pages is exactly the row
list, in descending `relevanceScore` order. -/
theorem c1_pagination_completeness (posts : List PostWithScore) (limit : Nat)
    (hlimit : 1 ≤ limit)
    (hids : (posts.map (fun p => p._id)).Nodup)
    (hsorted : List.Sorted (fun a b => b.relevanceScore ≤ a.relevanceScore) posts) :
    (allPages posts (some limit)).flatten = posts ∧
    List.Sorted (fun a b => b.relevanceScore ≤ a.relevanceScore)
      ((allPages posts (some limit)).flatten) := by
  have hjoin : (allPages posts (some limit)).flatten = posts := by
    rcases posts with - | ⟨p0, rest⟩
    · simp [allPages, collectPages, applyCursorPagination, resolveStartIndex, paginateFrom]
    · have h0 : (0 : Nat) < (p0 :: rest).length := by simp
      have hcf0 : (none : Option (ℚ × String)) = cursorFor (p0 :: rest) 0 := rfl
      rw [allPages, hcf0, collectPages_drop (p0 :: rest) limit hlimit hids
        ((p0 :: rest).length + 1) 0 h0 (by omega)]
      rfl
  refine ⟨hjoin, ?_⟩
  rw [hjoin]
  exact hsorted

/-- Witness for C1 on a concrete two-row descending list with limit 1. -/
theorem c1_pagination_completeness_witness :
    (allPages
      [{ _id := "aaaaaaaaaaaaaaaaaaaaaaaa", likeCount := 2, createdAt := 0, relevanceScore := 2 },
       { _id := "bbbbbbbbbbbbbbbbbbbbbbbb", likeCount := 1, createdAt := 0, relevanceScore := 1 }]
      (some 1)).flatten =
      [{ _id := "aaaaaaaaaaaaaaaaaaaaaaaa", likeCount := 2, createdAt := 0, relevanceScore := 2 },
       { _id := "bbbbbbbbbbbbbbbbbbbbbbbb", likeCount := 1, createdAt := 0, relevanceScore := 1 }] ∧
    List.Sorted (fun a b => b.relevanceScore ≤ a.relevanceScore)
      ((allPages
        [{ _id := "aaaaaaaaaaaaaaaaaaaaaaaa", likeCount := 2, createdAt := 0, relevanceScore := 2 },
         { _id := "bbbbbbbbbbbbbbbbbbbbbbbb", likeCount := 1, createdAt := 0, relevanceScore := 1 }]
        (some 1)).flatten) :=
  c1_pagination_completeness _ 1 (by decide) (by decide) (by decide)

/-! ## Relevance scorer: C2 and C3 -/

/-- C2.  Score formula: for every post with like count `L`, creation
timestamp `c`, and evaluation time `t`, `calculateRelevanceScore` returns
`L * exp (-0.1 * h)` with `h = (fdiv t 1hr * 1hr - c) / 1hr`; when `L = 0`
the score is `0`; and when `c` lies in the future relative to the quantized
bucket the score strictly exceeds `L` (for a post that has any likes at
all — with `L = 0` both sides are `0` by the previous conjunct), i.e. such
inputs are not rejected. -/
theorem c2_score_formula (post : Post) (t : Int) :
    calculateRelevanceScore post t =
      post.likeCount *
        Real.exp (-0.1 *
          (((Int.fdiv t HOUR_IN_MS * HOUR_IN_MS - post.createdAt : Int) : ℝ) /
            (HOUR_IN_MS : ℝ))) ∧
    (post.likeCount = 0 → calculateRelevanceScore post t = 0) ∧
    (Int.fdiv t HOUR_IN_MS * HOUR_IN_MS < post.createdAt → 0 < post.likeCount →
      (post.likeCount : ℝ) < calculateRelevanceScore post t) := by
  refine ⟨rfl, fun h0 => ?_, fun hfut hpos => ?_⟩
  · simp [calculateRelevanceScore, h0]
  · have hH : (0 : ℝ) < (HOUR_IN_MS : ℝ) := by norm_num [HOUR_IN_MS]
    have hnum : ((quantizedTime t - post.createdAt : Int) : ℝ) < 0 := by
      have : quantizedTime t - post.createdAt < 0 := by
        simp only [quantizedTime]
        omega
      exact_mod_cast this
    have hho : hoursOld t post.createdAt < 0 :=
      div_neg_of_neg_of_pos hnum hH
    have hexp : 1 < Real.exp (-0.1 * hoursOld t post.createdAt) := by
      rw [Real.one_lt_exp_iff]
      nlinarith
    have hL : (0 : ℝ) < (post.likeCount : ℝ) := by exact_mod_cast hpos
    calc (post.likeCount : ℝ) = post.likeCount * 1 := by ring
    _ < post.likeCount * Real.exp (-0.1 * hoursOld t post.createdAt) := by
        exact mul_lt_mul_of_pos_left hexp hL
    _ = calculateRelevanceScore post t := rfl

/-- Witness for C2 at concrete inputs: a two-like post created one hour in
the future of the quantized bucket scores strictly above `2`, and a zero-like
post scores `0`. -/
theorem c2_score_formula_witness :
    (2 : ℝ) < calculateRelevanceScore { _id := "", likeCount := 2, createdAt := HOUR_IN_MS } 0 ∧
    calculateRelevanceScore { _id := "", likeCount := 0, createdAt := 0 } 0 = 0 :=
  ⟨(c2_score_formula { _id := "", likeCount := 2, createdAt := HOUR_IN_MS } 0).2.2
      (by decide) (by decide),
    (c2_score_formula { _id := "", likeCount := 0, createdAt := 0 } 0).2.1 rfl⟩

/-- C3.  Quantization invariance: two evaluation times in the same hour
bucket (equal `floor (t / 1hr)`) yield exactly equal scores for every post. -/
theorem c3_quantization_invariance (post : Post) (t1 t2 : Int)
    (h : Int.fdiv t1 HOUR_IN_MS = Int.fdiv t2 HOUR_IN_MS) :
    calculateRelevanceScore post t1 = calculateRelevanceScore post t2 := by
  unfold calculateRelevanceScore hoursOld quantizedTime
  rw [h]

/-! ## Orchestrator claim C8: cache failures never fail a request -/

/-- C8.  Cache failures never fail a request: when the underlying cache get
and set operations both error, `CacheService.get` returns `null` (treated as
a miss) and `CacheService.set` returns normally, so `getFeed` still returns
a normal successful response computed from the store with
`meta.cacheHit = false` — identical to the response of an ordinary cache
miss; the cache error is never propagated to the caller. -/
theorem c8_cache_failure_absorbed (scoreFn : Post → ℚ) (storePosts : List Post)
    (storeTotalCount : Nat) (limit? : Option Nat) (cursor : Option (ℚ × String))
    (category : Option String) :
    cacheServiceGet (α := CachedPostData) .error = none ∧
    cacheServiceSet .error = () ∧
    (getFeed scoreFn .error .error storePosts storeTotalCount limit? cursor
        category).meta.cacheHit = false ∧
    getFeed scoreFn .error .error storePosts storeTotalCount limit? cursor category =
      getFeed scoreFn (.ok none) (.ok ()) storePosts storeTotalCount limit? cursor
        category :=
  ⟨rfl, rfl, rfl, rfl⟩

/-- Witness for C3: the times `0` and `1` lie in the same hour bucket and
give the same score for a concrete post. -/
theorem c3_quantization_invariance_witness :
    Int.fdiv 0 HOUR_IN_MS = Int.fdiv 1 HOUR_IN_MS ∧
    calculateRelevanceScore { _id := "", likeCount := 5, createdAt := 0 } 0 =
      calculateRelevanceScore { _id := "", likeCount := 5, createdAt := 0 } 1 :=
  ⟨by decide, c3_quantization_invariance { _id := "", likeCount := 5, createdAt := 0 } 0 1 (by decide)⟩

end TeaFeed
